import Mathlib

/-!
Shallow Lean embedding of the candidate-scoring pipeline of the
autonomous-auto-agent repository: the constraint normalizer
(src/lib/agent/normalize.ts), the state machine and clamps
(src/lib/agent/stateMachine.ts), the scoring and tiering engine
(src/lib/market/scoreAndTier.ts), the decision engine
(src/lib/market/decide.ts) and the watch store
(src/lib/market/watch.ts, src/lib/market/watchStore.ts).

JavaScript strings are modelled as Lean String values and their
character lists; number fields that the code compares and adds are
modelled as Nat (prices, miles, years) and Int (scores).  Optional
fields are Option values, and JavaScript truthiness of a string or
number option is modelled explicitly (none and the empty string, or
zero, are falsy).  The character class of the JavaScript \s regex
class and of String.prototype.trim is modelled by isJsWs, and
toLowerCase and toUpperCase by their ASCII action, which is the only
part the repository relies on.
-/

set_option maxRecDepth 8000

namespace AutoAgent

/-- Character class of the JavaScript \s regex class and of trim. -/
def isJsWs (c : Char) : Bool :=
  c = ' ' || c = '\t' || c = '\n' || c = '\r' || c = Char.ofNat 11 || c = Char.ofNat 12 ||
    c = Char.ofNat 160 || c = Char.ofNat 65279

/-- ASCII action of JavaScript toLowerCase, written out case by case. -/
def jsToLowerChar (c : Char) : Char :=
  match c with
  | 'A' => 'a' | 'B' => 'b' | 'C' => 'c' | 'D' => 'd' | 'E' => 'e' | 'F' => 'f'
  | 'G' => 'g' | 'H' => 'h' | 'I' => 'i' | 'J' => 'j' | 'K' => 'k' | 'L' => 'l'
  | 'M' => 'm' | 'N' => 'n' | 'O' => 'o' | 'P' => 'p' | 'Q' => 'q' | 'R' => 'r'
  | 'S' => 's' | 'T' => 't' | 'U' => 'u' | 'V' => 'v' | 'W' => 'w' | 'X' => 'x'
  | 'Y' => 'y' | 'Z' => 'z'
  | c => c

/-- ASCII action of JavaScript toUpperCase, written out case by case. -/
def jsToUpperChar (c : Char) : Char :=
  match c with
  | 'a' => 'A' | 'b' => 'B' | 'c' => 'C' | 'd' => 'D' | 'e' => 'E' | 'f' => 'F'
  | 'g' => 'G' | 'h' => 'H' | 'i' => 'I' | 'j' => 'J' | 'k' => 'K' | 'l' => 'L'
  | 'm' => 'M' | 'n' => 'N' | 'o' => 'O' | 'p' => 'P' | 'q' => 'Q' | 'r' => 'R'
  | 's' => 'S' | 't' => 'T' | 'u' => 'U' | 'v' => 'V' | 'w' => 'W' | 'x' => 'X'
  | 'y' => 'Y' | 'z' => 'Z'
  | c => c

/-- Model of s.toLowerCase(). -/
def lowerStr (s : String) : String := String.mk (s.data.map jsToLowerChar)

/-- Model of s.toUpperCase(). -/
def upperStr (s : String) : String := String.mk (s.data.map jsToUpperChar)

/-- Drop a trailing run of JavaScript whitespace (trimEnd). -/
def trimRightL : List Char → List Char
  | [] => []
  | c :: rest =>
    let r := trimRightL rest
    if r.isEmpty then (if isJsWs c then [] else [c]) else c :: r

/-- Model of String.prototype.trim at the character-list level. -/
def trimL (l : List Char) : List Char := trimRightL (l.dropWhile isJsWs)

/-- Model of String.prototype.trim. -/
def jsTrim (s : String) : String := String.mk (trimL s.data)

/-- Model of replace over the regex s-plus class by a single space:
each maximal run of whitespace becomes one space.  The Bool flag
records whether the previously seen character was whitespace. -/
def collapseWsAux : Bool → List Char → List Char
  | _, [] => []
  | prevWs, c :: rest =>
    if isJsWs c then
      if prevWs then collapseWsAux true rest
      else ' ' :: collapseWsAux true rest
    else c :: collapseWsAux false rest

/-- Model of replacing the en and em dashes by a plain dash. -/
def dashNorm (c : Char) : Char := if c = '–' || c = '—' then '-' else c

/-- JavaScript truthiness of an optional string. -/
def oStr (x : Option String) : Bool :=
  match x with
  | none => false
  | some s => !s.isEmpty

/-- JavaScript truthiness of an optional number (zero is falsy). -/
def oNat (x : Option Nat) : Bool :=
  match x with
  | none => false
  | some n => n != 0

/-- Substring test at the character-list level (s.includes(pat)). -/
def listContainsSub (s pat : List Char) : Bool :=
  match s with
  | [] => pat.isEmpty
  | _ :: rest => pat.isPrefixOf s || listContainsSub rest pat

/-- Model of hay.includes(pat) on strings. -/
def strIncludes (hay pat : String) : Bool := listContainsSub hay.data pat.data

/-- Word character of the regex word-boundary semantics. -/
def isWordChar (c : Char) : Bool := c.isAlpha || c.isDigit || c = '_'

/-- After a literal match, a regex word boundary requires the next
character to be a non-word character (or the end of the input). -/
def endBound : List Char → Bool
  | [] => true
  | c :: _ => !(isWordChar c)

/-- Consume the literal pat from the front of s, returning the rest. -/
def litRest : List Char → List Char → Option (List Char)
  | s, [] => some s
  | [], _ :: _ => none
  | c :: s, p :: ps => if c = p then litRest s ps else none

/-- A word-bounded occurrence of the literal pat starting exactly here. -/
def litBoundedHere (s pat : List Char) : Bool :=
  match litRest s pat with
  | some r => endBound r
  | none => false

/-- Scan for a word-bounded occurrence of a literal whose first and
last characters are word characters; prevW records whether the
character before the current position is a word character. -/
def scanWord (pat : List Char) : Bool → List Char → Bool
  | _, [] => false
  | prevW, c :: rest => (!prevW && litBoundedHere (c :: rest) pat) || scanWord pat (isWordChar c) rest

/-- Model of a word-bounded regex test for one literal alternative. -/
def wordContains (t pat : String) : Bool := scanWord pat.data false t.data

/-- Model of a word-bounded regex test over a list of alternatives. -/
def anyIndicator (t : String) (pats : List String) : Bool := pats.any (fun p => wordContains t p)

/-! Data model (src/lib/agent/schema.ts). -/

inductive GoalType
  | vehicle_hunt
  | part_sourcing
  | styling_package
deriving DecidableEq

/-- JSON name of a goal type, as JSON.stringify serializes it. -/
def GoalType.str : GoalType → String
  | .vehicle_hunt => "vehicle_hunt"
  | .part_sourcing => "part_sourcing"
  | .styling_package => "styling_package"

inductive AgentState
  | S0_INIT
  | S1_CAPTURE
  | S2_CONFIRM
  | S3_EXPLORE
  | S4_DECIDE
  | S5_WATCH
  | S6_ITERATE
  | S7_CLOSE
deriving DecidableEq

inductive Verdict
  | ACCEPT
  | CONDITIONAL
  | REJECT
deriving DecidableEq

/-- Display name of a verdict, as message building interpolates it. -/
def Verdict.str : Verdict → String
  | .ACCEPT => "ACCEPT"
  | .CONDITIONAL => "CONDITIONAL"
  | .REJECT => "REJECT"

structure ConstraintTier where
  tier1 : List String
  tier2 : List String
  tier3 : List String
deriving DecidableEq

structure Taste where
  rejection_rules : List String
deriving DecidableEq

structure Vehicle where
  make : Option String
  model : Option String
  gen : Option String
  trim : Option String
  year_range : Option String
  body_style : Option String
  transmission : Option String
  color : Option String
deriving DecidableEq

/-- Empty vehicle object, the value of the nullish-coalescing default. -/
def emptyVehicle : Vehicle := ⟨none, none, none, none, none, none, none, none⟩

structure Budget where
  max : Option Nat
  notes : Option String
deriving DecidableEq

structure Intent where
  goal_type : GoalType
  vehicle : Option Vehicle
  budget : Option Budget
deriving DecidableEq

structure Candidate where
  id : String
  title : String
  url : Option String
  verdict : Verdict
  score : Int
  rationale : List String
  images : Option (List String)
  is_placeholder : Option Bool
deriving DecidableEq

/-- Placeholder candidate used to model the non-null assertion on a
list already known to be non-empty. -/
def defaultCandidate : Candidate := ⟨"", "", none, .CONDITIONAL, 0, [], none, none⟩

structure WatchSpec where
  must_have : List String
  acceptable : List String
  reject : List String
  sources : List String
deriving DecidableEq

structure AgentSession where
  id : String
  state : AgentState
  goal_type : GoalType
  intent : Intent
  constraints : ConstraintTier
  taste : Taste
  finalists : List Candidate
  discovery : List Candidate
  watch : Option WatchSpec
  last_user_message : Option String
  notes : Option (List String)
deriving DecidableEq

/-! Constraint normalizer (src/lib/agent/normalize.ts). -/

/-- Model of normalizeLine: lowercase, collapse whitespace runs to one
space, unify en and em dashes to a plain dash, then trim. -/
def normLineL (l : List Char) : List Char :=
  trimL ((collapseWsAux false (l.map jsToLowerChar)).map dashNorm)

/-- Model of the normalizeLine helper of normalize.ts. -/
def normalizeLine (s : String) : String := String.mk (normLineL s.data)

/-- Worker of dedupeStrings, carrying the output accumulator. -/
def dedupeGo : List String → List String → List String
  | [], out => out
  | x :: rest, out =>
    let n := normalizeLine x
    if n.isEmpty then dedupeGo rest out
    else if out.any (fun y => normalizeLine y == n) then dedupeGo rest out
    else dedupeGo rest (out ++ [jsTrim x])

/-- Model of the dedupeStrings helper of normalize.ts: keep the first
occurrence of each normalized line, pushed trimmed. -/
def dedupeStrings (items : List String) : List String := dedupeGo items []

inductive Tier
  | tier1
  | tier2
  | tier3
deriving DecidableEq, Fintype

/-- Hard tier-1 indicator alternatives of the regex in
classifyConstraintTier; deal-?breaker contributes both spellings. -/
def hardIndicators : List String :=
  ["non-negotiable", "deal-breaker", "dealbreaker", "must", "only", "clean title"]

/-- Soft tier-3 indicator alternatives. -/
def niceIndicators : List String := ["nice to have", "nice-to-have", "nice"]

/-- Preference-language indicator alternatives. -/
def preferenceIndicators : List String :=
  ["avoid", "prefer", "preferred", "ideal", "ideally", "acceptable", "ok"]

/-- Decision core of classifyConstraintTier once the three indicator
tests are evaluated on the normalized text. -/
def tierOf (hard nice pref : Bool) (prior : Tier) : Tier :=
  if hard then .tier1
  else if nice then .tier3
  else if pref then (if prior = .tier3 then .tier3 else .tier2)
  else prior

/-- Model of classifyConstraintTier of normalize.ts. -/
def classifyConstraintTier (text : String) (prior : Tier) : Tier :=
  let t := normalizeLine text
  tierOf (anyIndicator t hardIndicators) (anyIndicator t niceIndicators)
    (anyIndicator t preferenceIndicators) prior

/-- Model of the pushUnique closure of normalizeSession. -/
def pushUnique (arr : List String) (item : String) : List String :=
  let norm := normalizeLine item
  if norm.isEmpty then arr
  else if arr.any (fun x => normalizeLine x == norm) then arr
  else arr ++ [jsTrim item]

/-- One constraint dispatched into the three output buckets according
to its classified tier. -/
def retierStep (prior : Tier) (st : ConstraintTier) (c : String) : ConstraintTier :=
  match classifyConstraintTier c prior with
  | .tier1 => { st with tier1 := pushUnique st.tier1 c }
  | .tier2 => { st with tier2 := pushUnique st.tier2 c }
  | .tier3 => { st with tier3 := pushUnique st.tier3 c }

/-- The tier-normalization pass of normalizeSession: process the
tier-1 constraints first, then tier-2, then tier-3. -/
def retier (cs : ConstraintTier) : ConstraintTier :=
  let st1 := cs.tier1.foldl (retierStep .tier1) ⟨[], [], []⟩
  let st2 := cs.tier2.foldl (retierStep .tier2) st1
  cs.tier3.foldl (retierStep .tier3) st2

/-! Regex extraction helpers of normalize.ts, modelled at the
character-list level.  A match scan mirrors the word-boundary
semantics: a match may start only where the previous character is not
a word character, and must end at a non-word character or the end. -/

/-- Generic first-match scan: matchHere decides whether a bounded
match starts exactly at the current position and returns its text. -/
def findPatAux (matchHere : List Char → Option (List Char)) : Bool → List Char → Option (List Char)
  | _, [] => none
  | prevW, c :: rest =>
    match (if prevW then none else matchHere (c :: rest)) with
    | some m => some m
    | none => findPatAux matchHere (isWordChar c) rest

/-- First word-bounded match of a pattern in a string. -/
def findPat (matchHere : List Char → Option (List Char)) (s : String) : Option (List Char) :=
  findPatAux matchHere false s.data

/-- Bounded match of the NNN.N generation pattern at this position. -/
def genDotHere : List Char → Option (List Char)
  | a :: b :: c :: d :: e :: rest =>
    if a.isDigit && b.isDigit && c.isDigit && d = '.' && e.isDigit && endBound rest
    then some [a, b, c, d, e] else none
  | _ => none

/-- Bounded match of the bare three-digit generation pattern. -/
def genThreeHere : List Char → Option (List Char)
  | a :: b :: c :: rest =>
    if a.isDigit && b.isDigit && c.isDigit && endBound rest then some [a, b, c] else none
  | _ => none

/-- Bounded match of the uppercase-letter plus two-or-three-digit
pattern (greedy: three digits are preferred when bounded). -/
def genLetterHere : List Char → Option (List Char)
  | a :: b :: c :: d :: rest =>
    if a.isUpper && b.isDigit && c.isDigit then
      if d.isDigit && endBound rest then some [a, b, c, d]
      else if endBound (d :: rest) then some [a, b, c]
      else none
    else none
  | [a, b, c] => if a.isUpper && b.isDigit && c.isDigit then some [a, b, c] else none
  | _ => none

/-- Bounded match of the case-insensitive B-digit pattern with an
optional dot-digit tail (greedy on the tail). -/
def genBHere : List Char → Option (List Char)
  | a :: b :: rest =>
    if (a = 'B' || a = 'b') && b.isDigit then
      match rest with
      | '.' :: d :: rest2 =>
        if d.isDigit && endBound rest2 then some [a, b, '.', d]
        else some [a, b]
      | _ => if endBound rest then some [a, b] else none
    else none
  | _ => none

/-- Model of extractGenerationToken: try the four pattern families in
order and uppercase the first match. -/
def extractGenerationToken (text : String) : Option String :=
  match findPat genDotHere text with
  | some m => some (upperStr (String.mk m))
  | none =>
    match findPat genThreeHere text with
    | some m => some (upperStr (String.mk m))
    | none =>
      match findPat genLetterHere text with
      | some m => some (upperStr (String.mk m))
      | none =>
        match findPat genBHere text with
        | some m => some (upperStr (String.mk m))
        | none => none

/-- Unbounded match of a 19xx or 20xx year at this position, returning
the four characters and the rest. -/
def yearHere : List Char → Option (List Char × List Char)
  | a :: b :: c :: d :: rest =>
    if ((a = '1' && b = '9') || (a = '2' && b = '0')) && c.isDigit && d.isDigit
    then some ([a, b, c, d], rest) else none
  | _ => none

def isDashChar (c : Char) : Bool := c = '-' || c = '–' || c = '—'

/-- Bounded match of year-dash-year with optional whitespace. -/
def yearRangeDashHere (l : List Char) : Option (List Char) :=
  match yearHere l with
  | none => none
  | some (y1, r1) =>
    let ws1 := r1.takeWhile isJsWs
    match r1.dropWhile isJsWs with
    | d :: r3 =>
      if isDashChar d then
        let ws2 := r3.takeWhile isJsWs
        match yearHere (r3.dropWhile isJsWs) with
        | some (y2, r5) => if endBound r5 then some (y1 ++ ws1 ++ [d] ++ ws2 ++ y2) else none
        | none => none
      else none
    | [] => none

/-- Bounded match of year-to-year (case-insensitive to) with optional
whitespace. -/
def yearRangeToHere (l : List Char) : Option (List Char)  :=
  match yearHere l with
  | none => none
  | some (y1, r1) =>
    let ws1 := r1.takeWhile isJsWs
    match r1.dropWhile isJsWs with
    | t :: o :: r3 =>
      if (t = 't' || t = 'T') && (o = 'o' || o = 'O') then
        let ws2 := r3.takeWhile isJsWs
        match yearHere (r3.dropWhile isJsWs) with
        | some (y2, r5) => if endBound r5 then some (y1 ++ ws1 ++ [t, o] ++ ws2 ++ y2) else none
        | none => none
      else none
    | _ => none

/-- Bounded match of a lone four-digit year at this position (pattern
used to pull the year tokens back out of a matched range). -/
def yearBoundedHere : List Char → Option (List Char × List Char)
  | l =>
    match yearHere l with
    | some (y, r) => if endBound r then some (y, r) else none
    | none => none

/-- First word-bounded year in a scan, together with the rest. -/
def findYearAux : Bool → List Char → Option (List Char × List Char)
  | _, [] => none
  | prevW, c :: rest =>
    match (if prevW then none else yearBoundedHere (c :: rest)) with
    | some yr => some yr
    | none => findYearAux (isWordChar c) rest

/-- The first two word-bounded years of a character list, mirroring a
global year-regex match followed by taking the first two entries; the
second search resumes after the first match with a word character on
its left. -/
def findTwoYears (l : List Char) : Option (String × String) :=
  match findYearAux false l with
  | none => none
  | some (y1, r1) =>
    match findYearAux true r1 with
    | none => none
    | some (y2, _) => some (String.mk y1, String.mk y2)

/-- Model of extractYearRange: match a year range (dash form first,
then the to form), then re-extract the two bounded year tokens from
the matched text and rejoin them with a dash. -/
def extractYearRange (text : String) : Option String :=
  match
    (match findPat yearRangeDashHere text with
     | some m => some m
     | none => findPat yearRangeToHere text) with
  | none => none
  | some m =>
    match findTwoYears m with
    | none => none
    | some (a, b) => some (a ++ "-" ++ b)

/-- Model of joining an array of strings with the string bar
separator, as the constraint texts are concatenated. -/
def joinBar : List String → String
  | [] => ""
  | [a] => a
  | a :: rest => a ++ " | " ++ joinBar rest

/-- Model of normalizeSession of normalize.ts: back-fill the intent's
generation and year range from the concatenated constraint text when
missing, then reclassify and de-duplicate the three tiers. -/
def normalizeSession (session : AgentSession) : AgentSession :=
  let allText := joinBar (session.constraints.tier1 ++ session.constraints.tier2 ++
    session.constraints.tier3)
  let v0 := session.intent.vehicle.getD emptyVehicle
  let v1 :=
    if oStr v0.gen then v0
    else
      match extractGenerationToken allText with
      | some g => { v0 with gen := some g }
      | none => v0
  let v2 :=
    if oStr v1.year_range then v1
    else
      match extractYearRange allText with
      | some yr => { v1 with year_range := some yr }
      | none => v1
  { session with
      intent := { session.intent with vehicle := some v2 },
      constraints := retier session.constraints }

structure CanonicalBoundary where
  tier1 : List String
  tier2 : List String
  hard_rejections : List String
deriving DecidableEq

/-- Model of computeCanonicalBoundary of normalize.ts. -/
def computeCanonicalBoundary (session : AgentSession) : CanonicalBoundary :=
  let tier1 := session.constraints.tier1
  let tier2 := session.constraints.tier2
  let explicitRules := session.taste.rejection_rules
  let derived := tier1.map (fun x => "No listings that violate: " ++ x)
  { tier1 := tier1, tier2 := tier2, hard_rejections := dedupeStrings (explicitRules ++ derived) }

/-! State machine and list clamps (src/lib/agent/stateMachine.ts). -/

/-- Model of nextExecState: the pure transition function. -/
def nextExecState (session : AgentSession) : AgentState :=
  match session.state with
  | .S0_INIT => .S1_CAPTURE
  | .S1_CAPTURE => if 3 ≤ session.constraints.tier1.length then .S2_CONFIRM else .S1_CAPTURE
  | .S2_CONFIRM => .S3_EXPLORE
  | .S3_EXPLORE => .S4_DECIDE
  | .S4_DECIDE =>
    if session.finalists.any (fun c => c.verdict = .ACCEPT) then .S7_CLOSE else .S5_WATCH
  | .S5_WATCH => .S7_CLOSE
  | .S6_ITERATE => .S2_CONFIRM
  | .S7_CLOSE => .S7_CLOSE

/-- Stable insertion into a descending-by-score list: an element is
placed before the first element whose score does not exceed it, so
earlier elements win ties, as in the stable JavaScript array sort. -/
def insertDesc (c : Candidate) : List Candidate → List Candidate
  | [] => [c]
  | x :: xs => if x.score ≤ c.score then c :: x :: xs else x :: insertDesc c xs

/-- Sort a candidate list by descending score, modelling the stable
JavaScript array sort under the numeric score comparator. -/
def sortByScoreDesc (items : List Candidate) : List Candidate :=
  items.foldr insertDesc []

/-- Model of clampFinalists: sort descending by score, take five. -/
def clampFinalists (items : List Candidate) : List Candidate :=
  (sortByScoreDesc items).take 5

/-- Model of clampDiscovery: sort descending by score, take three. -/
def clampDiscovery (items : List Candidate) : List Candidate :=
  (sortByScoreDesc items).take 3

/-! Scoring and tiering engine (src/lib/market/scoreAndTier.ts). -/

inductive Transmission
  | manual
  | automatic
  | either
deriving DecidableEq

structure ExploreSeed where
  make : Option String
  model : Option String
  yearMin : Option Nat
  yearMax : Option Nat
  generation : Option String
  trim : Option String
  transmission : Option Transmission
  exteriorColor : Option String
  titleClean : Bool
  avoidSaltHistory : Bool
  mileageIdealMax : Option Nat
  mileageOkMax : Option Nat
  budgetMaxUsd : Option Nat
deriving DecidableEq

/-- Seed with every field unset, a convenient base for literals. -/
def emptySeed : ExploreSeed :=
  ⟨none, none, none, none, none, none, none, none, false, false, none, none, none⟩

structure CandidateSignals where
  year : Option Nat
  make : Option String
  model : Option String
  trim : Option String
  transmission : Option String
  exteriorColor : Option String
  price : Option Nat
  miles : Option Nat
  state : Option String
  dealer : Option String
  url : Option String
  vin : Option String
  rawText : Option String
deriving DecidableEq

/-- Signal record with every field unset. -/
def emptySignals : CandidateSignals :=
  ⟨none, none, none, none, none, none, none, none, none, none, none, none, none⟩

/-- Model of the includesCI helper of scoreAndTier.ts. -/
def includesCI (hay needle : Option String) : Bool :=
  if !(oStr hay) || !(oStr needle) then false
  else strIncludes (lowerStr (hay.getD "")) (lowerStr (needle.getD ""))

/-- Model of the transmissionNorm helper of scoreAndTier.ts. -/
def transmissionNorm (x : Option String) : Option String :=
  let t := lowerStr (x.getD "")
  if t.isEmpty then none
  else if strIncludes t "manual" then some "manual"
  else if strIncludes t "automatic" || strIncludes t "pdk" || strIncludes t "dsg" then
    some "automatic"
  else none

inductive MatchResult
  | confirmed
  | unknown
deriving DecidableEq

/-- Model of strictAttributeMatch of scoreAndTier.ts. -/
def strictAttributeMatch (required : Option String) (evidence : List (Option String)) :
    MatchResult :=
  if !(oStr required) then .confirmed
  else
    let req := lowerStr (required.getD "")
    let haystack :=
      lowerStr (String.intercalate " " ((evidence.filterMap id).filter (fun s => !s.isEmpty)))
    if haystack.isEmpty then .unknown
    else if strIncludes haystack req then .confirmed
    else .unknown

/-- The wrong-make identity gate condition. -/
def wrongMake (seed : ExploreSeed) (sig : CandidateSignals) : Bool :=
  oStr seed.make && oStr sig.make && !includesCI sig.make seed.make

/-- The wrong-model identity gate condition. -/
def wrongModel (seed : ExploreSeed) (sig : CandidateSignals) : Bool :=
  oStr seed.model && oStr sig.model && !includesCI sig.model seed.model

/-- The year gate condition of scoreAndTier.ts: pass when no year
minimum is required, or when the year is present and in range. -/
def yearOkFor (seed : ExploreSeed) (sig : CandidateSignals) : Bool :=
  !(oNat seed.yearMin) ||
    (sig.year.isSome && decide (seed.yearMin.getD 0 ≤ sig.year.getD 0) &&
      (!(oNat seed.yearMax) || decide (sig.year.getD 0 ≤ seed.yearMax.getD 0)))

/-- The transmission gate condition of scoreAndTier.ts. -/
def txOkFor (seed : ExploreSeed) (sig : CandidateSignals) : Bool :=
  !(seed.transmission == some .manual) || (transmissionNorm sig.transmission == some "manual")

/-- The budget gate condition of scoreAndTier.ts. -/
def budgetOkFor (seed : ExploreSeed) (sig : CandidateSignals) : Bool :=
  !(oNat seed.budgetMaxUsd) ||
    (sig.price.isSome && decide (sig.price.getD 0 ≤ seed.budgetMaxUsd.getD 0))

/-- Decimal digit grouping of Number.prototype.toLocaleString for the
default locale, on the reversed digit list. -/
def commaGroupRev : List Char → Nat → List Char
  | [], _ => []
  | c :: rest, pos =>
    if pos ≠ 0 && pos % 3 = 0 then ',' :: c :: commaGroupRev rest (pos + 1)
    else c :: commaGroupRev rest (pos + 1)

/-- Model of n.toLocaleString() for a natural number. -/
def natLocale (n : Nat) : String :=
  String.mk ((commaGroupRev (toString n).data.reverse 1).reverse)

def msgTrimConfirmed (t : String) : String := "Trim confirmed (" ++ t ++ ")"

def msgTrimNotConfirmed (t : String) : String := "Trim not confirmed (" ++ t ++ ")"

def msgColorConfirmed (t : String) : String := "Color confirmed (" ++ t ++ ")"

def msgColorNotConfirmed (t : String) : String := "Color not confirmed (" ++ t ++ ")"

def msgMileageIdeal (n : Nat) : String := "Mileage ideal (≤" ++ natLocale n ++ " mi)"

def msgMileageAcceptable (n : Nat) : String := "Mileage acceptable (≤" ++ natLocale n ++ " mi)"

/-- The verify-year rationale line of the scoring body: present only
when a year minimum is required and the year is absent. -/
def yearReasonsFor (seed : ExploreSeed) (sig : CandidateSignals) : List String :=
  if oNat seed.yearMin && sig.year.isNone then ["Year not specified (verify)"] else []

/-- Trim evidence classification of the scoring body. -/
def trimMatchFor (seed : ExploreSeed) (sig : CandidateSignals) : MatchResult :=
  strictAttributeMatch seed.trim [sig.trim, sig.rawText]

/-- Color evidence classification of the scoring body. -/
def colorMatchFor (seed : ExploreSeed) (sig : CandidateSignals) : MatchResult :=
  strictAttributeMatch seed.exteriorColor [sig.exteriorColor, sig.rawText]

/-- Score contribution of the manual-transmission bonus. -/
def manualScore (seed : ExploreSeed) : Int :=
  if seed.transmission == some .manual then 10 else 0

/-- Score contribution of trim evidence. -/
def trimScore (seed : ExploreSeed) (sig : CandidateSignals) : Int :=
  if oStr seed.trim && (trimMatchFor seed sig == .confirmed) then 8 else 0

/-- Score contribution of color evidence. -/
def colorScore (seed : ExploreSeed) (sig : CandidateSignals) : Int :=
  if oStr seed.exteriorColor && (colorMatchFor seed sig == .confirmed) then 12 else 0

/-- Score contribution of the budget comparison. -/
def budgetScore (seed : ExploreSeed) (sig : CandidateSignals) : Int :=
  if oNat seed.budgetMaxUsd then
    if budgetOkFor seed sig && sig.price.isSome then 8
    else if sig.price.isSome then -10
    else 0
  else 0

/-- Score contribution of the mileage preferences. -/
def mileageScore (seed : ExploreSeed) (sig : CandidateSignals) : Int :=
  match sig.miles with
  | some m =>
    if oNat seed.mileageIdealMax && decide (m ≤ seed.mileageIdealMax.getD 0) then 10
    else if oNat seed.mileageOkMax && decide (m ≤ seed.mileageOkMax.getD 0) then 5
    else if oNat seed.mileageOkMax && decide (seed.mileageOkMax.getD 0 < m) then -8
    else 0
  | none => 0

/-- Rationale lines of the manual-transmission bonus. -/
def manualReasons (seed : ExploreSeed) : List String :=
  if seed.transmission == some .manual then ["Manual transmission"] else []

/-- Rationale lines of trim evidence. -/
def trimReasons (seed : ExploreSeed) (sig : CandidateSignals) : List String :=
  if oStr seed.trim then
    if trimMatchFor seed sig == .confirmed then [msgTrimConfirmed (seed.trim.getD "")]
    else [msgTrimNotConfirmed (seed.trim.getD "")]
  else []

/-- Rationale lines of color evidence. -/
def colorReasons (seed : ExploreSeed) (sig : CandidateSignals) : List String :=
  if oStr seed.exteriorColor then
    if colorMatchFor seed sig == .confirmed then [msgColorConfirmed (seed.exteriorColor.getD "")]
    else [msgColorNotConfirmed (seed.exteriorColor.getD "")]
  else []

/-- Rationale lines of the budget comparison. -/
def budgetReasons (seed : ExploreSeed) (sig : CandidateSignals) : List String :=
  if oNat seed.budgetMaxUsd then
    if budgetOkFor seed sig && sig.price.isSome then ["Within budget"]
    else if sig.price.isSome then ["Over budget"]
    else ["Price unknown"]
  else []

/-- Rationale lines of the mileage preferences. -/
def mileageReasons (seed : ExploreSeed) (sig : CandidateSignals) : List String :=
  match sig.miles with
  | some m =>
    if oNat seed.mileageIdealMax && decide (m ≤ seed.mileageIdealMax.getD 0) then
      [msgMileageIdeal (seed.mileageIdealMax.getD 0)]
    else if oNat seed.mileageOkMax && decide (m ≤ seed.mileageOkMax.getD 0) then
      [msgMileageAcceptable (seed.mileageOkMax.getD 0)]
    else if oNat seed.mileageOkMax && decide (seed.mileageOkMax.getD 0 < m) then
      ["Mileage above preference"]
    else []
  | none => ["Mileage unknown"]

/-- Rationale lines of the salt-road advisory. -/
def saltReasons (seed : ExploreSeed) (sig : CandidateSignals) : List String :=
  if seed.avoidSaltHistory && oStr sig.state then ["Verify salt-road history"] else []

/-- Score clamp to the zero-to-one-hundred range (the rounding of the
source is the identity on the integer scores produced here). -/
def clampScore (s : Int) : Int := max 0 (min 100 s)

/-- The tier-1 compound gate of scoreAndTier.ts. -/
def tier1PassFor (seed : ExploreSeed) (sig : CandidateSignals) : Bool :=
  (!(oStr seed.trim) || trimMatchFor seed sig == .confirmed) &&
    (!(oStr seed.exteriorColor) || colorMatchFor seed sig == .confirmed) &&
    txOkFor seed sig && yearOkFor seed sig && budgetOkFor seed sig

inductive Outcome
  | rejectedC (c : Candidate)
  | finalistC (c : Candidate)
  | discoveryC (c : Candidate)
deriving DecidableEq

/-- Candidate carried by an outcome. -/
def Outcome.cand : Outcome → Candidate
  | .rejectedC c => c
  | .finalistC c => c
  | .discoveryC c => c

def Outcome.isDiscovery : Outcome → Bool
  | .discoveryC _ => true
  | _ => false

def Outcome.isFinalist : Outcome → Bool
  | .finalistC _ => true
  | _ => false

def Outcome.isRejected : Outcome → Bool
  | .rejectedC _ => true
  | _ => false

/-- Scoring body of the per-record loop of scoreAndTier, entered once
the four hard gates have passed. -/
def scoreBody (seed : ExploreSeed) (sig : CandidateSignals) (candidate : Candidate) : Outcome :=
  let reasons := yearReasonsFor seed sig ++ manualReasons seed ++ trimReasons seed sig ++
    colorReasons seed sig ++ budgetReasons seed sig ++ mileageReasons seed sig ++
    saltReasons seed sig
  let score : Int := 50 + manualScore seed + trimScore seed sig + colorScore seed sig +
    budgetScore seed sig + mileageScore seed sig
  let out : Candidate :=
    { candidate with score := clampScore score, rationale := reasons, verdict := .CONDITIONAL }
  if tier1PassFor seed sig then
    .finalistC { out with verdict := if 75 ≤ out.score then .ACCEPT else .CONDITIONAL }
  else .discoveryC out

/-- Per-record evaluation of the main loop of scoreAndTier: identity,
year and transmission gates reject with score zero, otherwise the
scoring body runs. -/
def scoreRecord (seed : ExploreSeed) (sig : CandidateSignals) (candidate : Candidate) : Outcome :=
  if wrongMake seed sig then
    .rejectedC { candidate with verdict := .REJECT, score := 0, rationale := ["Wrong make"] }
  else if wrongModel seed sig then
    .rejectedC { candidate with verdict := .REJECT, score := 0, rationale := ["Wrong model"] }
  else if !(yearOkFor seed sig) then
    .rejectedC
      { candidate with verdict := .REJECT, score := 0, rationale := ["Year outside required range"] }
  else if !(txOkFor seed sig) then
    .rejectedC { candidate with
      verdict := .REJECT, score := 0, rationale := ["Transmission does not meet requirement"] }
  else scoreBody seed sig candidate

structure Tiered where
  finalists : List Candidate
  discovery : List Candidate
  rejected : List Candidate
deriving DecidableEq

/-- One loop iteration of scoreAndTier appending into the three
output lists. -/
def tierStep (seed : ExploreSeed) (acc : Tiered) (p : CandidateSignals × Candidate) : Tiered :=
  match scoreRecord seed p.1 p.2 with
  | .rejectedC c => { acc with rejected := acc.rejected ++ [c] }
  | .finalistC c => { acc with finalists := acc.finalists ++ [c] }
  | .discoveryC c => { acc with discovery := acc.discovery ++ [c] }

/-- Model of scoreAndTier of scoreAndTier.ts, parameterized like the
source by the two clamp functions applied at the output boundary. -/
def scoreAndTier (seed : ExploreSeed) (pairs : List (CandidateSignals × Candidate))
    (clampF clampD : List Candidate → List Candidate) : Tiered :=
  let acc := pairs.foldl (tierStep seed) ⟨[], [], []⟩
  { finalists := clampF acc.finalists, discovery := clampD acc.discovery,
    rejected := acc.rejected }

/-! Decision engine (src/lib/market/decide.ts). -/

inductive S4Decision
  | ACT (rationale : List String) (selected : Candidate)
  | WATCH (rationale : List String) (watchSeedSummary : List String) (blockers : List String)
  | REVISE (rationale : List String) (suggestedEdits : List String)
deriving DecidableEq

/-- Action name of a decision. -/
def S4Decision.actionTag : S4Decision → String
  | .ACT _ _ => "ACT"
  | .WATCH _ _ _ => "WATCH"
  | .REVISE _ _ => "REVISE"

/-- Model of the topByScore helper: sort a copy descending by score
and take the first element. -/
def topByScore (arr : List Candidate) : Option Candidate :=
  if arr.isEmpty then none else (sortByScoreDesc arr).head?

/-- Model of fmtCandidateLine of decide.ts. -/
def fmtCandidateLine (c : Candidate) : String :=
  let title := if oStr c.url then "[" ++ c.title ++ "](" ++ c.url.getD "" ++ ")" else c.title
  "- [" ++ c.verdict.str ++ "] " ++ title ++ " (score " ++ toString c.score ++ ")"

/-- Worker of extractBlockers over the flattened rationale lines. -/
def blockersGo (max : Nat) : List String → List String → List String
  | [], out => out
  | r :: rest, out =>
    if max ≤ out.length then out
    else
      let s := jsTrim r
      if s.isEmpty then blockersGo max rest out
      else if strIncludes (lowerStr s) "not confirmed" then
        if out.any (fun x => lowerStr x == lowerStr s) then blockersGo max rest out
        else blockersGo max rest (out ++ [s])
      else blockersGo max rest out

/-- Model of extractBlockers of decide.ts: up to max distinct trimmed
rationale lines containing the not-confirmed marker. -/
def extractBlockers (candidates : List Candidate) (max : Nat) : List String :=
  blockersGo max (candidates.foldr (fun c acc => c.rationale ++ acc) []) []

/-- Bulleted joining of message lines. -/
def bulleted (xs : List String) : String :=
  String.intercalate "\n" (xs.map (fun x => "- " ++ x))

/-- Model of decide of decide.ts, returning the decision object and
the rendered message. -/
def decide (session : AgentSession) : S4Decision × String :=
  let finalists := session.finalists
  let discovery := session.discovery
  let canonical := computeCanonicalBoundary session
  let tier1 := canonical.tier1
  if !finalists.isEmpty then
    let best := (topByScore finalists).getD defaultCandidate
    let rationale := ["At least one listing meets all Tier 1 constraints.",
      "This is the best-scoring qualifying candidate right now."]
    let msg := "S4 Decide\n\n" ++ "Recommendation: ACT\n\n" ++ "Why:\n" ++ bulleted rationale ++
      "\n\nSelected:\n" ++ fmtCandidateLine best ++
      "\n\nNext: Inspect details, verify history/service, and move to outreach/PPI."
    (.ACT rationale best, msg)
  else if finalists.isEmpty && !discovery.isEmpty then
    let blockers := extractBlockers discovery 4
    let rationale := ["No listings currently meet all Tier 1 constraints.",
      "Near-miss listings exist, but they fail strict requirements or lack confirmation.",
      "Waiting is the correct decision for this specification; set a watch."]
    let top3 := discovery.take 3
    let msg := "S4 Decide\n\n" ++ "Recommendation: WATCH\n\n" ++ "Why:\n" ++ bulleted rationale ++
      "\n\nTier 1 boundary:\n" ++
      (if !tier1.isEmpty then bulleted tier1 else "- (none captured)") ++
      "\n\nBlocking signals (from listings):\n" ++
      (if !blockers.isEmpty then bulleted blockers else "- (no explicit blockers captured)") ++
      "\n\nClosest matches (Discovery):\n" ++
      String.intercalate "\n" (top3.map fmtCandidateLine) ++
      "\n\nNext: Create a watch (S5) or revise constraints if you want more supply."
    (.WATCH rationale tier1 blockers, msg)
  else
    let rationale :=
      ["No listings meet Tier 1 constraints and no near-misses were found in the current retrieval window.",
      "This specification may be unrealistically strict, or the market is temporarily empty."]
    let suggestedEdits :=
      ["Relax one Tier 1 constraint (e.g., color, trim, transmission) if acceptable.",
      "Increase budget ceiling.",
      "Broaden acceptable years or mileage.",
      "Expand search radius / allow shipping if not already."]
    let msg := "S4 Decide\n\n" ++ "Recommendation: REVISE\n\n" ++ "Why:\n" ++ bulleted rationale ++
      "\n\nSuggested edits:\n" ++ bulleted suggestedEdits ++
      "\n\nNext: Update constraints and re-run Explore (S3)."
    (.REVISE rationale suggestedEdits, msg)

/-! Watch store (src/lib/market/watch.ts and watchStore.ts).  The
process-wide mutable map is modelled as an explicit association list
threaded through the calls in insertion order. -/

abbrev WatchStore := List (String × WatchSpec)

/-- Model of getWatch of watchStore.ts. -/
def getWatch (store : WatchStore) (key : String) : Option WatchSpec :=
  (store.find? (fun kv => kv.1 == key)).map (fun kv => kv.2)

/-- Model of setWatch of watchStore.ts: a map set replaces the value
of an existing key in place, else appends in insertion order. -/
def setWatch (store : WatchStore) (key : String) (w : WatchSpec) : WatchStore :=
  if store.any (fun kv => kv.1 == key) then
    store.map (fun kv => if kv.1 == key then (key, w) else kv)
  else store ++ [(key, w)]

/-- Escaping of one character as JSON.stringify escapes it. -/
def jsonEscapeChar (c : Char) : List Char :=
  if c = '"' then ['\\', '"']
  else if c = '\\' then ['\\', '\\']
  else if c = '\n' then ['\\', 'n']
  else if c = '\t' then ['\\', 't']
  else if c = '\r' then ['\\', 'r']
  else [c]

/-- JSON serialization of a string. -/
def jsonStr (s : String) : String :=
  "\"" ++ String.mk (s.data.foldr (fun c acc => jsonEscapeChar c ++ acc) []) ++ "\""

/-- JSON serialization of an array of strings. -/
def jsonArr (xs : List String) : String :=
  "[" ++ String.intercalate "," (xs.map jsonStr) ++ "]"

/-- The watch spec that ensureWatch builds from a session. -/
def ensureSpec (session : AgentSession) : WatchSpec :=
  let canonical := computeCanonicalBoundary session
  { must_have := canonical.tier1, acceptable := canonical.tier2,
    reject := canonical.hard_rejections, sources := ["auto.dev"] }

/-- The content key JSON.stringify produces inside ensureWatch. -/
def ensureKey (session : AgentSession) : String :=
  let spec := ensureSpec session
  "\x7b\"goal\":" ++ jsonStr session.goal_type.str ++
    ",\"must_have\":" ++ jsonArr spec.must_have ++
    ",\"acceptable\":" ++ jsonArr spec.acceptable ++
    ",\"reject\":" ++ jsonArr spec.reject ++
    ",\"sources\":" ++ jsonArr spec.sources ++ "\x7d"

/-- Model of ensureWatch of watch.ts: look the content key up before
inserting; an existing entry is returned unchanged and reported as
not created. -/
def ensureWatch (store : WatchStore) (session : AgentSession) : WatchSpec × Bool × WatchStore :=
  let spec := ensureSpec session
  let key := ensureKey session
  match getWatch store key with
  | some existing => (existing, false, store)
  | none => (spec, true, setWatch store key spec)

/-! Concrete values used below to exercise the definitions. -/

/-- Candidate literal with only an identifier and title set. -/
def mkCand (i : String) : Candidate := ⟨i, i, none, .CONDITIONAL, 0, [], none, none⟩

/-- Candidate literal with an identifier and a score. -/
def mkScored (i : String) (s : Int) : Candidate := ⟨i, i, none, .CONDITIONAL, s, [], none, none⟩

/-- Session literal with the given constraints and goal type and
every other field minimal. -/
def mkSession (cs : ConstraintTier) (gt : GoalType) : AgentSession :=
  ⟨"s", .S1_CAPTURE, gt, ⟨gt, none, none⟩, cs, ⟨[]⟩, [], [], none, none, none⟩

def c1seed : ExploreSeed := { emptySeed with budgetMaxUsd := some 60000 }

def c1sig : CandidateSignals := { emptySignals with price := some 70000 }

def c2seed : ExploreSeed := { emptySeed with yearMin := some 2003 }

def c3sess : AgentSession := mkSession ⟨[], ["must avoid rust"], []⟩ .vehicle_hunt

def c4sess : AgentSession :=
  mkSession ⟨["2003to2004 prefer"], ["1990 to 1995 must"], []⟩ .vehicle_hunt

def c5sess : AgentSession :=
  { mkSession ⟨["a"], [], []⟩ .vehicle_hunt with
      finalists := [mkScored "low" 70, mkScored "high" 95] }

def c6sessA : AgentSession := mkSession ⟨["clean title must"], [], []⟩ .vehicle_hunt

def c6sessB : AgentSession := mkSession ⟨["clean title must"], [], []⟩ .part_sourcing

def c8sess : AgentSession := mkSession ⟨["a", "b", "c"], [], []⟩ .vehicle_hunt

def c8sessDecide : AgentSession :=
  { mkSession ⟨[], [], []⟩ .vehicle_hunt with
      state := .S4_DECIDE,
      finalists := [{ mkCand "f" with verdict := .ACCEPT }] }

def c9seed : ExploreSeed := { emptySeed with make := some "Porsche", model := some "Boxster" }

def c10seed : ExploreSeed := { emptySeed with transmission := some .manual }

def c10sig : CandidateSignals := { emptySignals with transmission := some "Manual" }

/-- Elements the reclassification may store in a given output tier:
stably classified into that tier, already trimmed, and with a
non-empty normalized line. -/
def goodFor (p : Tier) (x : String) : Prop :=
  classifyConstraintTier x p = p ∧ jsTrim x = x ∧ (normalizeLine x).isEmpty = false

/-- Pairwise distinctness of normalized lines, the de-duplication
invariant of each output tier. -/
def distinctNorms (l : List String) : Prop :=
  l.Pairwise (fun a b => normalizeLine a ≠ normalizeLine b)

/-- Invariant of the reclassification state. -/
def StInv (st : ConstraintTier) : Prop :=
  (∀ x ∈ st.tier1, goodFor .tier1 x) ∧ (∀ x ∈ st.tier2, goodFor .tier2 x) ∧
    (∀ x ∈ st.tier3, goodFor .tier3 x) ∧
    distinctNorms st.tier1 ∧ distinctNorms st.tier2 ∧ distinctNorms st.tier3

/-! Theorems.  Shared helper lemmas come first, then one theorem per
claim with its witness or counterexample. -/

theorem insertDesc_perm (c : Candidate) (l : List Candidate) :
    (insertDesc c l).Perm (c :: l) := by
  induction l with
  | nil => simp [insertDesc]
  | cons x xs ih =>
    by_cases h : x.score ≤ c.score
    · simp [insertDesc, h]
    · rw [insertDesc, if_neg h]
      exact (List.Perm.cons x ih).trans (List.Perm.swap c x xs)

theorem sortByScoreDesc_perm (l : List Candidate) : (sortByScoreDesc l).Perm l := by
  induction l with
  | nil => simp [sortByScoreDesc]
  | cons x xs ih =>
    have h1 : sortByScoreDesc (x :: xs) = insertDesc x (sortByScoreDesc xs) := rfl
    rw [h1]
    exact (insertDesc_perm x (sortByScoreDesc xs)).trans (List.Perm.cons x ih)

theorem insertDesc_pairwise (c : Candidate) (l : List Candidate)
    (hl : l.Pairwise (fun a b => b.score ≤ a.score)) :
    (insertDesc c l).Pairwise (fun a b => b.score ≤ a.score) := by
  induction l with
  | nil => simp [insertDesc]
  | cons x xs ih =>
    rcases List.pairwise_cons.mp hl with ⟨hx, hxs⟩
    by_cases h : x.score ≤ c.score
    · rw [insertDesc, if_pos h]
      refine List.pairwise_cons.mpr ⟨?_, hl⟩
      intro b hb
      rcases List.mem_cons.mp hb with hb | hb
      · exact hb ▸ h
      · exact le_trans (hx b hb) h
    · rw [insertDesc, if_neg h]
      refine List.pairwise_cons.mpr ⟨?_, ih hxs⟩
      intro b hb
      have hb2 := (insertDesc_perm c xs).mem_iff.mp hb
      rcases List.mem_cons.mp hb2 with hb2 | hb2
      · exact hb2 ▸ le_of_lt (lt_of_not_le h)
      · exact hx b hb2

theorem sortByScoreDesc_pairwise (l : List Candidate) :
    (sortByScoreDesc l).Pairwise (fun a b => b.score ≤ a.score) := by
  induction l with
  | nil => simp [sortByScoreDesc]
  | cons x xs ih => exact insertDesc_pairwise x (sortByScoreDesc xs) ih

theorem mem_sortByScoreDesc {a : Candidate} {l : List Candidate} :
    a ∈ sortByScoreDesc l ↔ a ∈ l := (sortByScoreDesc_perm l).mem_iff

theorem topByScore_spec (arr : List Candidate) (hne : arr ≠ []) :
    ∃ best, topByScore arr = some best ∧ best ∈ arr ∧ ∀ c ∈ arr, c.score ≤ best.score := by
  have hlen : (sortByScoreDesc arr).length = arr.length := (sortByScoreDesc_perm arr).length_eq
  have hsne : sortByScoreDesc arr ≠ [] := by
    intro h
    apply hne
    have := congrArg List.length h
    rw [hlen] at this
    exact List.length_eq_zero.mp this
  obtain ⟨b, t, hbt⟩ := List.exists_cons_of_ne_nil hsne
  refine ⟨b, ?_, ?_, ?_⟩
  · have : ¬arr.isEmpty := by
      cases arr
      · exact absurd rfl hne
      · simp
    simp [topByScore, this, hbt]
  · exact mem_sortByScoreDesc.mp (hbt ▸ List.mem_cons_self b t)
  · intro c hc
    have hcs : c ∈ sortByScoreDesc arr := mem_sortByScoreDesc.mpr hc
    rw [hbt] at hcs
    rcases List.mem_cons.mp hcs with h | h
    · exact le_of_eq (congrArg Candidate.score h)
    · have hp := sortByScoreDesc_pairwise arr
      rw [hbt] at hp
      exact List.rel_of_pairwise_cons hp h

theorem clampFinalists_length (l : List Candidate) : (clampFinalists l).length ≤ 5 :=
  List.length_take_le 5 (sortByScoreDesc l)

theorem clampDiscovery_length (l : List Candidate) : (clampDiscovery l).length ≤ 3 :=
  List.length_take_le 3 (sortByScoreDesc l)

theorem clampFinalists_pairwise (l : List Candidate) :
    (clampFinalists l).Pairwise (fun a b => b.score ≤ a.score) :=
  List.Pairwise.sublist (List.take_sublist 5 (sortByScoreDesc l)) (sortByScoreDesc_pairwise l)

theorem clampDiscovery_pairwise (l : List Candidate) :
    (clampDiscovery l).Pairwise (fun a b => b.score ≤ a.score) :=
  List.Pairwise.sublist (List.take_sublist 3 (sortByScoreDesc l)) (sortByScoreDesc_pairwise l)

/-- C7: for every seed and candidate batch, scoreAndTier applied with
the state-machine clamps returns at most five finalists and at most
three discovery candidates, both sorted by descending score; the
clamp is applied at the output boundary of scoreAndTier. -/
theorem caps_and_order_of_scoreAndTier (seed : ExploreSeed)
    (pairs : List (CandidateSignals × Candidate)) :
    (scoreAndTier seed pairs clampFinalists clampDiscovery).finalists.length ≤ 5 ∧
    (scoreAndTier seed pairs clampFinalists clampDiscovery).discovery.length ≤ 3 ∧
    (scoreAndTier seed pairs clampFinalists clampDiscovery).finalists.Pairwise
      (fun a b => b.score ≤ a.score) ∧
    (scoreAndTier seed pairs clampFinalists clampDiscovery).discovery.Pairwise
      (fun a b => b.score ≤ a.score) := by
  refine ⟨?_, ?_, ?_, ?_⟩ <;>
    simp only [scoreAndTier] <;>
    first
      | exact clampFinalists_length _
      | exact clampDiscovery_length _
      | exact clampFinalists_pairwise _
      | exact clampDiscovery_pairwise _

/-- C8: the transition function is a pure total function of the
session; from capture it confirms exactly when tier one has at least
three entries, from decide it closes exactly when an accepted
finalist exists and watches otherwise, and close is a self-loop. -/
theorem nextExecState_transitions (s : AgentSession) :
    (s.state = .S1_CAPTURE →
      nextExecState s =
        (if 3 ≤ s.constraints.tier1.length then .S2_CONFIRM else .S1_CAPTURE)) ∧
    (s.state = .S4_DECIDE →
      nextExecState s =
        (if s.finalists.any (fun c => c.verdict = .ACCEPT) then .S7_CLOSE else .S5_WATCH)) ∧
    (s.state = .S7_CLOSE → nextExecState s = .S7_CLOSE) := by
  refine ⟨fun h => ?_, fun h => ?_, fun h => ?_⟩ <;> simp only [nextExecState, h]

/-- C8 witness: a capture session with three tier-one entries
advances to confirm, and a decide session with an accepted finalist
closes. -/
theorem nextExecState_transitions_witness :
    nextExecState c8sess = .S2_CONFIRM ∧ nextExecState c8sessDecide = .S7_CLOSE := by
  constructor
  · have h := (nextExecState_transitions c8sess).1 rfl
    simp at h
    exact h
  · have h := (nextExecState_transitions c8sessDecide).2.1 rfl
    simp [c8sessDecide] at h
    exact h

/-- C5: decide returns ACT exactly when finalists is non-empty (and
then selects a highest-scoring finalist), WATCH exactly when
finalists is empty and discovery is non-empty, REVISE exactly when
both are empty, and identical inputs give identical decisions. -/
theorem decide_exhaustive (s : AgentSession) :
    ((decide s).1.actionTag = "ACT" ↔ s.finalists ≠ []) ∧
    ((decide s).1.actionTag = "WATCH" ↔ (s.finalists = [] ∧ s.discovery ≠ [])) ∧
    ((decide s).1.actionTag = "REVISE" ↔ (s.finalists = [] ∧ s.discovery = [])) ∧
    (∀ r sel, (decide s).1 = .ACT r sel →
      sel ∈ s.finalists ∧ ∀ c ∈ s.finalists, c.score ≤ sel.score) ∧
    decide s = decide s := by
  by_cases hf : s.finalists = []
  · by_cases hd : s.discovery = []
    · refine ⟨?_, ?_, ?_, ?_, rfl⟩ <;> simp [decide, S4Decision.actionTag, hf, hd]
    · refine ⟨?_, ?_, ?_, ?_, rfl⟩ <;> simp [decide, S4Decision.actionTag, hf, hd]
  · obtain ⟨best, htop, hmem, hmax⟩ := topByScore_spec s.finalists hf
    have hne : ¬s.finalists.isEmpty := by
      cases hfl : s.finalists
      · exact absurd hfl hf
      · simp [hfl]
    have hdec : (decide s).1 =
        .ACT ["At least one listing meets all Tier 1 constraints.",
          "This is the best-scoring qualifying candidate right now."] best := by
      simp [decide, hne, htop]
    refine ⟨?_, ?_, ?_, ?_, rfl⟩
    · simp [hdec, S4Decision.actionTag, hf]
    · simp [hdec, S4Decision.actionTag, hf]
    · simp [hdec, S4Decision.actionTag, hf]
    · intro r sel h
      rw [hdec] at h
      cases h
      exact ⟨hmem, hmax⟩

/-- C5 witness: on a concrete session with two finalists the decision
is ACT and it selects the higher-scoring one. -/
theorem decide_exhaustive_witness :
    (decide c5sess).1.actionTag = "ACT" ∧
    ∀ r sel, (decide c5sess).1 = .ACT r sel → sel ∈ c5sess.finalists ∧
      ∀ c ∈ c5sess.finalists, c.score ≤ sel.score := by
  refine ⟨?_, ?_⟩
  · exact (decide_exhaustive c5sess).1.mpr (by simp [c5sess])
  · exact (decide_exhaustive c5sess).2.2.2.1

/-- C9: when the record's make (respectively model) field is absent,
the identity gate is skipped rather than failed: scoring proceeds
exactly as if the seed did not require that field, and a record with
both fields absent can still reach the finalists list. -/
theorem identity_gate_skipped (seed : ExploreSeed) (sig : CandidateSignals) (c : Candidate) :
    (sig.make = none → scoreRecord seed sig c = scoreRecord { seed with make := none } sig c) ∧
    (sig.model = none → scoreRecord seed sig c = scoreRecord { seed with model := none } sig c) ∧
    (scoreAndTier c9seed [(emptySignals, mkCand "r")] clampFinalists
      clampDiscovery).finalists.length = 1 := by
  refine ⟨fun hmk => ?_, fun hmd => ?_, by decide⟩
  · have h1 : wrongMake seed sig = false := by simp [wrongMake, hmk, oStr]
    have h2 : wrongMake { seed with make := none } sig = false := by simp [wrongMake, hmk, oStr]
    simp only [scoreRecord, h1, h2]
    rfl
  · have h1 : wrongModel seed sig = false := by simp [wrongModel, hmd, oStr]
    have h2 : wrongModel { seed with model := none } sig = false := by
      simp [wrongModel, hmd, oStr]
    simp only [scoreRecord, h1, h2]
    rfl

/-- C9 witness: a seed requiring a make and model scores a record
with both fields absent identically to an unconstrained seed, and
that record lands among the finalists. -/
theorem identity_gate_skipped_witness :
    scoreRecord c9seed emptySignals (mkCand "r") =
      scoreRecord { c9seed with make := none } emptySignals (mkCand "r") ∧
    (scoreAndTier c9seed [(emptySignals, mkCand "r")] clampFinalists
      clampDiscovery).finalists.length = 1 := by
  have h := identity_gate_skipped c9seed emptySignals (mkCand "r")
  exact ⟨h.1 rfl, h.2.2⟩

/-- C10: when the seed requires a manual transmission, every record
that passes the identity, year and transmission gates receives the
Manual transmission rationale line and a ten-point bonus: its score
is the clamp of sixty plus the trim, color, budget and mileage
contributions. -/
theorem manual_transmission_bonus (seed : ExploreSeed) (sig : CandidateSignals) (c : Candidate)
    (hman : seed.transmission = some .manual)
    (hmk : wrongMake seed sig = false) (hmd : wrongModel seed sig = false)
    (hyr : yearOkFor seed sig = true) (htx : txOkFor seed sig = true) :
    "Manual transmission" ∈ (scoreRecord seed sig c).cand.rationale ∧
    (scoreRecord seed sig c).cand.score =
      clampScore (60 + trimScore seed sig + colorScore seed sig + budgetScore seed sig +
        mileageScore seed sig) := by
  have hrec : scoreRecord seed sig c = scoreBody seed sig c := by
    simp [scoreRecord, hmk, hmd, hyr, htx]
  have hms : manualScore seed = 10 := by simp [manualScore, hman]
  have hmr : manualReasons seed = ["Manual transmission"] := by simp [manualReasons, hman]
  have hscore : 50 + manualScore seed + trimScore seed sig + colorScore seed sig +
      budgetScore seed sig + mileageScore seed sig =
      60 + trimScore seed sig + colorScore seed sig + budgetScore seed sig +
        mileageScore seed sig := by
    rw [hms]; ring
  rw [hrec]
  unfold scoreBody
  by_cases hpass : tier1PassFor seed sig = true
  · simp only [hpass, if_true, Outcome.cand]
    refine ⟨?_, by rw [hscore]⟩
    simp [hmr]
  · simp only [Bool.not_eq_true] at hpass
    simp only [hpass, Bool.false_eq_true, if_false, Outcome.cand]
    refine ⟨?_, by rw [hscore]⟩
    simp [hmr]

/-- C10 witness: a manual-requiring seed against a manual record. -/
theorem manual_transmission_bonus_witness :
    "Manual transmission" ∈ (scoreRecord c10seed c10sig (mkCand "m")).cand.rationale ∧
    (scoreRecord c10seed c10sig (mkCand "m")).cand.score =
      clampScore (60 + trimScore c10seed c10sig + colorScore c10seed c10sig +
        budgetScore c10seed c10sig + mileageScore c10seed c10sig) :=
  manual_transmission_bonus c10seed c10sig (mkCand "m") rfl (by decide) (by decide) (by decide)
    (by decide)

/-- C1 amended: a record that passes the identity, year and
transmission gates but whose known price exceeds a known budget
ceiling is not hard rejected: it receives a ten-point penalty and an
Over budget rationale line and is demoted to the discovery outcome
(excluded from finalists but not tracked as rejected). -/
theorem over_budget_demoted_to_discovery (seed : ExploreSeed) (sig : CandidateSignals)
    (c : Candidate) (b p : Nat)
    (hmk : wrongMake seed sig = false) (hmd : wrongModel seed sig = false)
    (hyr : yearOkFor seed sig = true) (htx : txOkFor seed sig = true)
    (hb : seed.budgetMaxUsd = some b) (hb0 : 0 < b)
    (hp : sig.price = some p) (hover : b < p) :
    (scoreRecord seed sig c).isDiscovery = true ∧
    "Over budget" ∈ (scoreRecord seed sig c).cand.rationale ∧
    budgetScore seed sig = -10 := by
  have hrec : scoreRecord seed sig c = scoreBody seed sig c := by
    simp [scoreRecord, hmk, hmd, hyr, htx]
  have hbn : oNat seed.budgetMaxUsd = true := by
    simp [oNat, hb]
    omega
  have hbne : (b != 0) = true := by
    simp only [bne_iff_ne, ne_eq]
    omega
  have hdec : Decidable.decide (p ≤ b) = false := by
    rw [decide_eq_false_iff_not]
    omega
  have hbo : budgetOkFor seed sig = false := by
    simp only [budgetOkFor, hb, hp, oNat, Option.getD_some, Option.isSome_some, hbne, hdec,
      Bool.not_true, Bool.false_or, Bool.true_and, Bool.and_false]
  have hbr : budgetReasons seed sig = ["Over budget"] := by
    simp [budgetReasons, hbn, hbo, hp]
  have hbs : budgetScore seed sig = -10 := by
    simp [budgetScore, hbn, hbo, hp]
  have hpass : tier1PassFor seed sig = false := by
    simp [tier1PassFor, hbo]
  refine ⟨?_, ?_, hbs⟩
  · rw [hrec]
    unfold scoreBody
    simp [hpass, Outcome.isDiscovery]
  · rw [hrec]
    unfold scoreBody
    simp [hpass, hbr, Outcome.cand]

/-- C1 witness: a sixty-thousand budget against a known
seventy-thousand price demotes the record to discovery with the Over
budget rationale. -/
theorem over_budget_demoted_witness :
    (scoreRecord c1seed c1sig (mkCand "c1")).isDiscovery = true ∧
    "Over budget" ∈ (scoreRecord c1seed c1sig (mkCand "c1")).cand.rationale ∧
    budgetScore c1seed c1sig = -10 :=
  over_budget_demoted_to_discovery c1seed c1sig (mkCand "c1") 60000 70000 (by decide) (by decide)
    (by decide) (by decide) rfl (by decide) rfl (by decide)

/-- C1 counterexample: the over-budget record of the witness is not
excluded from both lists as the claim states: scoreAndTier places it
in the discovery list and leaves the rejected list empty. -/
theorem over_budget_not_excluded_counterexample :
    (scoreAndTier c1seed [(c1sig, mkCand "c1")] clampFinalists clampDiscovery).rejected = [] ∧
    (scoreAndTier c1seed [(c1sig, mkCand "c1")] clampFinalists clampDiscovery).finalists = [] ∧
    ((scoreAndTier c1seed [(c1sig, mkCand "c1")] clampFinalists
      clampDiscovery).discovery.map Candidate.id) = ["c1"] ∧
    "Over budget" ∈ ((scoreAndTier c1seed [(c1sig, mkCand "c1")] clampFinalists
      clampDiscovery).discovery.headD defaultCandidate).rationale := by
  refine ⟨by decide, by decide, by decide, by decide⟩

theorem contains_eq_false_of_not_mem {a : String} {l : List String} (h : a ∉ l) :
    l.contains a = false := by
  by_contra hc
  rw [Bool.not_eq_false] at hc
  exact h (List.elem_iff.mp hc)

theorem append3_head (pre mid suf : String) (c : Char) (rest : List Char)
    (hpre : pre.data = c :: rest) : (pre ++ mid ++ suf).data.head? = some c := by
  rw [String.data_append, String.data_append, hpre]
  rfl

theorem msgTrimConfirmed_head (t : String) : (msgTrimConfirmed t).data.head? = some 'T' :=
  append3_head "Trim confirmed (" t ")" 'T' "rim confirmed (".data rfl

theorem msgTrimNotConfirmed_head (t : String) : (msgTrimNotConfirmed t).data.head? = some 'T' :=
  append3_head "Trim not confirmed (" t ")" 'T' "rim not confirmed (".data rfl

theorem msgColorConfirmed_head (t : String) : (msgColorConfirmed t).data.head? = some 'C' :=
  append3_head "Color confirmed (" t ")" 'C' "olor confirmed (".data rfl

theorem msgColorNotConfirmed_head (t : String) :
    (msgColorNotConfirmed t).data.head? = some 'C' :=
  append3_head "Color not confirmed (" t ")" 'C' "olor not confirmed (".data rfl

theorem msgMileageIdeal_head (n : Nat) : (msgMileageIdeal n).data.head? = some 'M' :=
  append3_head "Mileage ideal (≤" (natLocale n) " mi)" 'M' "ileage ideal (≤".data rfl

theorem msgMileageAcceptable_head (n : Nat) :
    (msgMileageAcceptable n).data.head? = some 'M' :=
  append3_head "Mileage acceptable (≤" (natLocale n) " mi)" 'M' "ileage acceptable (≤".data rfl

/-- A string whose first character is not the letter of the
verify-year line differs from it. -/
theorem ne_yv_of_head {m : String} {c : Char} (hm : m.data.head? = some c) (hne : c ≠ 'Y') :
    m ≠ "Year not specified (verify)" := by
  intro he
  rw [he] at hm
  have h2 : some 'Y' = some c := hm
  exact hne (Option.some.inj h2).symm

theorem yv_notin_manualReasons (seed : ExploreSeed) :
    "Year not specified (verify)" ∉ manualReasons seed := by
  unfold manualReasons
  split <;> simp

theorem yv_notin_trimReasons (seed : ExploreSeed) (sig : CandidateSignals) :
    "Year not specified (verify)" ∉ trimReasons seed sig := by
  unfold trimReasons
  split
  · split
    · simp only [List.mem_singleton]
      exact fun h => (ne_yv_of_head (msgTrimConfirmed_head _) (by decide)) h.symm
    · simp only [List.mem_singleton]
      exact fun h => (ne_yv_of_head (msgTrimNotConfirmed_head _) (by decide)) h.symm
  · simp

theorem yv_notin_colorReasons (seed : ExploreSeed) (sig : CandidateSignals) :
    "Year not specified (verify)" ∉ colorReasons seed sig := by
  unfold colorReasons
  split
  · split
    · simp only [List.mem_singleton]
      exact fun h => (ne_yv_of_head (msgColorConfirmed_head _) (by decide)) h.symm
    · simp only [List.mem_singleton]
      exact fun h => (ne_yv_of_head (msgColorNotConfirmed_head _) (by decide)) h.symm
  · simp

theorem yv_notin_budgetReasons (seed : ExploreSeed) (sig : CandidateSignals) :
    "Year not specified (verify)" ∉ budgetReasons seed sig := by
  unfold budgetReasons
  split
  · split
    · simp
    · split <;> simp
  · simp

theorem yv_notin_mileageReasons (seed : ExploreSeed) (sig : CandidateSignals) :
    "Year not specified (verify)" ∉ mileageReasons seed sig := by
  unfold mileageReasons
  split
  · split
    · simp only [List.mem_singleton]
      exact fun h => (ne_yv_of_head (msgMileageIdeal_head _) (by decide)) h.symm
    · split
      · simp only [List.mem_singleton]
        exact fun h => (ne_yv_of_head (msgMileageAcceptable_head _) (by decide)) h.symm
      · split <;> simp
  · simp

theorem yv_notin_saltReasons (seed : ExploreSeed) (sig : CandidateSignals) :
    "Year not specified (verify)" ∉ saltReasons seed sig := by
  unfold saltReasons
  split <;> simp

theorem yearReasons_nil_of_yearOk (seed : ExploreSeed) (sig : CandidateSignals)
    (h : yearOkFor seed sig = true) : yearReasonsFor seed sig = [] := by
  unfold yearReasonsFor
  by_cases h1 : oNat seed.yearMin = true
  · unfold yearOkFor at h
    rw [h1] at h
    simp only [Bool.not_true, Bool.false_or, Bool.and_eq_true] at h
    have h2 : sig.year.isNone = false := by
      rcases h with ⟨⟨hs, _⟩, _⟩
      rcases Option.isSome_iff_exists.mp hs with ⟨y, hy⟩
      simp [hy]
    simp [h1, h2]
  · simp only [Bool.not_eq_true] at h1
    simp [h1]

/-- The verify-year rationale line can never be produced: the year
gate already rejected every record it would describe. -/
theorem year_verify_not_mem (seed : ExploreSeed) (sig : CandidateSignals) (c : Candidate) :
    "Year not specified (verify)" ∉ (scoreRecord seed sig c).cand.rationale := by
  unfold scoreRecord
  split
  · simp [Outcome.cand]
  split
  · simp [Outcome.cand]
  split
  · simp [Outcome.cand]
  split
  · simp [Outcome.cand]
  rename_i h1 h2 h3 h4
  have hyr : yearOkFor seed sig = true := by
    cases hy : yearOkFor seed sig
    · exact absurd (by rw [hy]; rfl) h3
    · rfl
  unfold scoreBody
  have hreasons : "Year not specified (verify)" ∉
      yearReasonsFor seed sig ++ manualReasons seed ++ trimReasons seed sig ++
        colorReasons seed sig ++ budgetReasons seed sig ++ mileageReasons seed sig ++
        saltReasons seed sig := by
    rw [yearReasons_nil_of_yearOk seed sig hyr]
    simp only [List.nil_append, List.mem_append]
    intro hmem
    rcases hmem with ((((hm | hm) | hm) | hm) | hm) | hm
    · exact yv_notin_manualReasons seed hm
    · exact yv_notin_trimReasons seed sig hm
    · exact yv_notin_colorReasons seed sig hm
    · exact yv_notin_budgetReasons seed sig hm
    · exact yv_notin_mileageReasons seed sig hm
    · exact yv_notin_saltReasons seed sig hm
  split
  · simpa [Outcome.cand] using hreasons
  · simpa [Outcome.cand] using hreasons

/-- C2: the code hard-rejects a record with an absent year under a
required year range (score zero, year-gate rationale), and the
verify-year rationale line of the claim is dead code: no outcome of
scoreRecord ever carries it. -/
theorem missing_year_hard_rejected :
    scoreRecord c2seed emptySignals (mkCand "c2") =
      .rejectedC { mkCand "c2" with
        verdict := .REJECT, score := 0, rationale := ["Year outside required range"] } ∧
    ∀ seed sig c, ((scoreRecord seed sig c).cand.rationale.contains
      "Year not specified (verify)") = false := by
  constructor
  · decide
  · intro seed sig c
    exact contains_eq_false_of_not_mem (year_verify_not_mem seed sig c)

theorem find?_eq_none_of_getWatch_none {store : WatchStore} {key : String}
    (h : getWatch store key = none) :
    List.find? (fun kv => kv.1 == key) store = none := by
  unfold getWatch at h
  cases hf : List.find? (fun kv => kv.1 == key) store
  · rfl
  · rw [hf] at h
    simp at h

theorem getWatch_setWatch_fresh {store : WatchStore} {key : String} (w : WatchSpec)
    (h : getWatch store key = none) :
    getWatch (setWatch store key w) key = some w := by
  have hf := find?_eq_none_of_getWatch_none h
  have hany : store.any (fun kv => kv.1 == key) = false := by
    rw [List.any_eq_false]
    intro kv hkv
    exact List.find?_eq_none.mp hf kv hkv
  unfold setWatch
  simp only [hany, Bool.false_eq_true, if_false]
  unfold getWatch
  rw [List.find?_append, hf]
  simp

/-- C6 amended: two calls of ensureWatch with sessions that produce
the same canonical boundary and carry the same goal type, starting
from a store without that content key, return created and then not
created, and the second call returns the very spec the first call
stored. -/
theorem ensureWatch_twice (store : WatchStore) (s1 s2 : AgentSession)
    (hb : computeCanonicalBoundary s1 = computeCanonicalBoundary s2)
    (hg : s1.goal_type = s2.goal_type)
    (hnone : getWatch store (ensureKey s1) = none) :
    (ensureWatch store s1).2.1 = true ∧
    (ensureWatch (ensureWatch store s1).2.2 s2).2.1 = false ∧
    (ensureWatch (ensureWatch store s1).2.2 s2).1 = (ensureWatch store s1).1 := by
  have hspec : ensureSpec s1 = ensureSpec s2 := by
    unfold ensureSpec
    rw [hb]
  have hkey : ensureKey s1 = ensureKey s2 := by
    unfold ensureKey
    rw [hspec, hg]
  have h1 : ensureWatch store s1 =
      (ensureSpec s1, true, setWatch store (ensureKey s1) (ensureSpec s1)) := by
    unfold ensureWatch
    simp only [hnone]
  have hlook : getWatch (setWatch store (ensureKey s1) (ensureSpec s1)) (ensureKey s2) =
      some (ensureSpec s1) := by
    rw [← hkey]
    exact getWatch_setWatch_fresh (ensureSpec s1) hnone
  have h2 : ensureWatch (setWatch store (ensureKey s1) (ensureSpec s1)) s2 =
      (ensureSpec s1, false, setWatch store (ensureKey s1) (ensureSpec s1)) := by
    unfold ensureWatch
    simp only [hlook]
  rw [h1]
  exact ⟨rfl, by rw [h2], by rw [h2]⟩

/-- C6 witness: the amended theorem at one concrete session called
twice against the empty store. -/
theorem ensureWatch_twice_witness :
    (ensureWatch [] c6sessA).2.1 = true ∧
    (ensureWatch (ensureWatch [] c6sessA).2.2 c6sessA).2.1 = false ∧
    (ensureWatch (ensureWatch [] c6sessA).2.2 c6sessA).1 = (ensureWatch [] c6sessA).1 :=
  ensureWatch_twice [] c6sessA c6sessA rfl rfl rfl

/-- C6 counterexample: two sessions with identical canonical
boundaries but different goal types get different content keys, so
the second call also reports created, contradicting the claim that
a shared canonical boundary alone suffices. -/
theorem ensureWatch_goal_type_counterexample :
    computeCanonicalBoundary c6sessA = computeCanonicalBoundary c6sessB ∧
    (ensureWatch [] c6sessA).2.1 = true ∧
    (ensureWatch (ensureWatch [] c6sessA).2.2 c6sessB).2.1 = true := by
  refine ⟨by decide, by decide, by decide⟩

theorem isJsWs_jsToLower (c : Char) : isJsWs (jsToLowerChar c) = isJsWs c := by
  unfold jsToLowerChar
  split <;> rfl

theorem isJsWs_dashNorm (c : Char) : isJsWs (dashNorm c) = isJsWs c := by
  unfold dashNorm
  split
  · rename_i h
    rcases Bool.or_eq_true_iff.mp (by exact h) with h1 | h1
    · rw [of_decide_eq_true h1]
      decide
    · rw [of_decide_eq_true h1]
      decide
  · rfl

theorem trimRightL_cons (c : Char) (rest : List Char) :
    trimRightL (c :: rest) =
      if (trimRightL rest).isEmpty then (if isJsWs c then [] else [c])
      else c :: trimRightL rest := rfl

theorem collapseWsAux_cons (b : Bool) (c : Char) (rest : List Char) :
    collapseWsAux b (c :: rest) =
      if isJsWs c then (if b then collapseWsAux true rest else ' ' :: collapseWsAux true rest)
      else c :: collapseWsAux false rest := rfl

theorem trimRightL_nil_of_allWs {l : List Char} (h : ∀ c ∈ l, isJsWs c = true) :
    trimRightL l = [] := by
  induction l with
  | nil => rfl
  | cons c rest ih =>
    have hr : trimRightL rest = [] := ih (fun d hd => h d (List.mem_cons_of_mem c hd))
    have hc : isJsWs c = true := h c (List.mem_cons_self c rest)
    rw [trimRightL_cons, hr]
    simp [hc]

theorem allWs_of_trimRightL_nil {l : List Char} (h : trimRightL l = []) :
    ∀ c ∈ l, isJsWs c = true := by
  induction l with
  | nil => simp
  | cons c rest ih =>
    rw [trimRightL_cons] at h
    by_cases hr : (trimRightL rest).isEmpty = true
    · rw [if_pos hr] at h
      by_cases hc : isJsWs c = true
      · intro d hd
        rcases List.mem_cons.mp hd with hd | hd
        · rw [hd]; exact hc
        · exact ih (List.isEmpty_iff.mp hr) d hd
      · rw [if_neg hc] at h
        exact absurd h (List.cons_ne_nil c [])
    · rw [if_neg hr] at h
      exact absurd h (List.cons_ne_nil c _)

theorem trimRightL_append_allWs {q : List Char} (hq : ∀ c ∈ q, isJsWs c = true)
    (k : List Char) : trimRightL (k ++ q) = trimRightL k := by
  induction k with
  | nil => simpa using trimRightL_nil_of_allWs hq
  | cons c rest ih =>
    show trimRightL (c :: (rest ++ q)) = trimRightL (c :: rest)
    rw [trimRightL_cons, trimRightL_cons, ih]

theorem trimRightL_idem (l : List Char) : trimRightL (trimRightL l) = trimRightL l := by
  induction l with
  | nil => rfl
  | cons c rest ih =>
    by_cases hr : (trimRightL rest).isEmpty = true
    · by_cases hc : isJsWs c = true
      · rw [show trimRightL (c :: rest) = [] from by
          rw [trimRightL_cons, if_pos hr, if_pos hc]]
        rfl
      · rw [show trimRightL (c :: rest) = [c] from by
          rw [trimRightL_cons, if_pos hr, if_neg hc]]
        rw [trimRightL_cons]
        simp [hc, show trimRightL [] = ([] : List Char) from rfl]
    · rw [show trimRightL (c :: rest) = c :: trimRightL rest from by
        rw [trimRightL_cons, if_neg hr]]
      rw [trimRightL_cons, ih, if_neg hr]

theorem trimRightL_decomp (l : List Char) :
    ∃ q, l = trimRightL l ++ q ∧ ∀ c ∈ q, isJsWs c = true := by
  induction l with
  | nil => exact ⟨[], rfl, by simp⟩
  | cons c rest ih =>
    obtain ⟨q, hq, hqw⟩ := ih
    rw [trimRightL_cons]
    by_cases hr : (trimRightL rest).isEmpty = true
    · have hrest : rest = q := by
        rw [List.isEmpty_iff.mp hr] at hq
        simpa using hq
      by_cases hc : isJsWs c = true
      · rw [if_pos hr, if_pos hc]
        refine ⟨c :: rest, by simp, ?_⟩
        intro d hd
        rcases List.mem_cons.mp hd with hd | hd
        · rw [hd]; exact hc
        · exact hqw d (hrest ▸ hd)
      · rw [if_pos hr, if_neg hc]
        exact ⟨rest, by simp, fun d hd => hqw d (hrest ▸ hd)⟩
    · rw [if_neg hr]
      exact ⟨q, by rw [List.cons_append, ← hq], hqw⟩

theorem trimRightL_head_not_ws {c : Char} {rest : List Char} (hc : isJsWs c = false) :
    trimRightL (c :: rest) = c :: trimRightL rest := by
  rw [trimRightL_cons]
  by_cases hr : (trimRightL rest).isEmpty = true
  · rw [if_pos hr, if_neg (by simp [hc]), List.isEmpty_iff.mp hr]
  · rw [if_neg hr]

/-- Collapsing from the run-skipping state equals collapsing the
whitespace-dropped rest from the fresh state. -/
theorem collapse_true_eq (m : List Char) :
    collapseWsAux true m = collapseWsAux false (m.dropWhile isJsWs) := by
  induction m with
  | nil => rfl
  | cons c rest ih =>
    by_cases hc : isJsWs c = true
    · rw [collapseWsAux_cons, if_pos hc, if_pos rfl, List.dropWhile_cons, if_pos hc, ih]
    · rw [collapseWsAux_cons, if_neg (by simp [hc]), List.dropWhile_cons, if_neg (by simp [hc]),
        collapseWsAux_cons, if_neg (by simp [hc])]

theorem collapse_false_dropWhile (m : List Char) :
    collapseWsAux false m =
      (if (m.takeWhile isJsWs).isEmpty then ([] : List Char) else [' ']) ++
        collapseWsAux false (m.dropWhile isJsWs) := by
  cases m with
  | nil => rfl
  | cons c rest =>
    by_cases hc : isJsWs c = true
    · have h1 : collapseWsAux false (c :: rest) = ' ' :: collapseWsAux true rest := by
        rw [collapseWsAux_cons, if_pos hc]
        rfl
      have h2 : (c :: rest).takeWhile isJsWs = c :: rest.takeWhile isJsWs := by
        rw [List.takeWhile_cons, if_pos hc]
      have h3 : (c :: rest).dropWhile isJsWs = rest.dropWhile isJsWs := by
        rw [List.dropWhile_cons, if_pos hc]
      rw [h1, h2, h3, collapse_true_eq]
      rfl
    · have h1 : collapseWsAux false (c :: rest) = c :: collapseWsAux false rest := by
        rw [collapseWsAux_cons, if_neg (by simp [hc])]
      have h2 : (c :: rest).takeWhile isJsWs = [] := by
        rw [List.takeWhile_cons, if_neg (by simp [hc])]
      have h3 : (c :: rest).dropWhile isJsWs = c :: rest := by
        rw [List.dropWhile_cons, if_neg (by simp [hc])]
      rw [h2, h3]
      simp [h1]

theorem collapse_allWs {q : List Char} (hq : ∀ c ∈ q, isJsWs c = true) :
    collapseWsAux false q = if q.isEmpty then ([] : List Char) else [' '] := by
  cases q with
  | nil => rfl
  | cons c rest =>
    have hc : isJsWs c = true := hq c (List.mem_cons_self c rest)
    rw [collapseWsAux_cons, if_pos hc, if_neg (by simp), collapse_true_eq]
    have hdrop : rest.dropWhile isJsWs = [] := by
      rw [List.dropWhile_eq_nil_iff]
      intro d hd
      exact hq d (List.mem_cons_of_mem c hd)
    rw [hdrop]
    rfl

/-- Collapsing a list that is its own right trim followed by a
whitespace run appends at most one space. -/
theorem collapse_append_allWs (core : List Char) (hcore : trimRightL core = core)
    (hne : core ≠ []) {q : List Char} (hq : ∀ c ∈ q, isJsWs c = true) (b : Bool) :
    collapseWsAux b (core ++ q) =
      collapseWsAux b core ++ (if q.isEmpty then ([] : List Char) else [' ']) := by
  induction core generalizing b with
  | nil => exact absurd rfl hne
  | cons c rest ih =>
    by_cases hrest : rest = []
    · subst hrest
      have hc : isJsWs c = false := by
        by_contra hcc
        rw [Bool.not_eq_false] at hcc
        have hnil := trimRightL_nil_of_allWs (l := [c]) (by simpa using hcc)
        rw [hnil] at hcore
        exact List.noConfusion hcore
      have h1 : collapseWsAux b ([c] ++ q) = c :: collapseWsAux false q := by
        rw [List.singleton_append, collapseWsAux_cons, if_neg (by simp [hc])]
      have h2 : collapseWsAux b [c] = [c] := by
        rw [collapseWsAux_cons, if_neg (by simp [hc])]
        rfl
      rw [h1, h2, collapse_allWs hq]
      simp
    · have hrec : trimRightL rest = rest := by
        rw [trimRightL_cons] at hcore
        by_cases hr : (trimRightL rest).isEmpty = true
        · rw [if_pos hr] at hcore
          by_cases hcw : isJsWs c = true
          · rw [if_pos hcw] at hcore
            exact absurd hcore.symm (List.cons_ne_nil c rest)
          · rw [if_neg hcw] at hcore
            exact absurd (List.cons.inj hcore).2.symm hrest
        · rw [if_neg hr] at hcore
          exact (List.cons.inj hcore).2
      by_cases hc : isJsWs c = true
      · rw [List.cons_append, collapseWsAux_cons, collapseWsAux_cons, if_pos hc, if_pos hc]
        cases b
        · rw [if_neg (by simp), if_neg (by simp), ih hrec hrest true]
          rfl
        · rw [if_pos rfl, if_pos rfl, ih hrec hrest true]
      · rw [List.cons_append, collapseWsAux_cons, collapseWsAux_cons, if_neg (by simp [hc]),
          if_neg (by simp [hc]), ih hrec hrest false]
        rfl

theorem trimL_cons_ws {c : Char} (hc : isJsWs c = true) (k : List Char) :
    trimL (c :: k) = trimL k := by
  unfold trimL
  rw [List.dropWhile_cons, if_pos hc]

theorem dropWhile_eq_nil_of_allWs {q : List Char} (hq : ∀ c ∈ q, isJsWs c = true) :
    q.dropWhile isJsWs = [] := by
  rw [List.dropWhile_eq_nil_iff]
  exact hq

theorem trimL_append_allWs {q : List Char} (hq : ∀ c ∈ q, isJsWs c = true) (k : List Char) :
    trimL (k ++ q) = trimL k := by
  unfold trimL
  rw [List.dropWhile_append]
  by_cases h : (k.dropWhile isJsWs).isEmpty = true
  · rw [if_pos h, List.isEmpty_iff.mp h, dropWhile_eq_nil_of_allWs hq]
  · rw [if_neg h, trimRightL_append_allWs hq]

theorem map_trimRightL {f : Char → Char} (hf : ∀ c, isJsWs (f c) = isJsWs c) (l : List Char) :
    (trimRightL l).map f = trimRightL (l.map f) := by
  induction l with
  | nil => rfl
  | cons c rest ih =>
    rw [List.map_cons, trimRightL_cons, trimRightL_cons, ← ih]
    have hempty : ((trimRightL rest).map f).isEmpty = (trimRightL rest).isEmpty := by
      cases trimRightL rest <;> rfl
    rw [hempty]
    by_cases hr : (trimRightL rest).isEmpty = true
    · rw [if_pos hr, if_pos hr, hf c]
      by_cases hc : isJsWs c = true
      · rw [if_pos hc, if_pos hc]
        rfl
      · rw [if_neg hc, if_neg hc]
        rfl
    · rw [if_neg hr, if_neg hr, List.map_cons]

theorem map_dropWhile_ws {f : Char → Char} (hf : ∀ c, isJsWs (f c) = isJsWs c) (l : List Char) :
    (l.dropWhile isJsWs).map f = (l.map f).dropWhile isJsWs := by
  induction l with
  | nil => rfl
  | cons c rest ih =>
    rw [List.map_cons, List.dropWhile_cons, List.dropWhile_cons, hf c]
    by_cases hc : isJsWs c = true
    · rw [if_pos hc, if_pos hc, ih]
    · rw [if_neg hc, if_neg hc, List.map_cons]

theorem map_trimL {f : Char → Char} (hf : ∀ c, isJsWs (f c) = isJsWs c) (l : List Char) :
    (trimL l).map f = trimL (l.map f) := by
  unfold trimL
  rw [map_trimRightL hf, map_dropWhile_ws hf]

theorem dropWhile_head_false {p : Char → Bool} {l : List Char} {c : Char} {rest : List Char}
    (h : l.dropWhile p = c :: rest) : p c = false := by
  induction l with
  | nil => exact absurd h (List.noConfusion)
  | cons a l2 ih =>
    rw [List.dropWhile_cons] at h
    by_cases ha : p a = true
    · rw [if_pos ha] at h
      exact ih h
    · rw [if_neg ha] at h
      rw [← (List.cons.inj h).1]
      exact Bool.not_eq_true _ |>.mp ha

theorem trimL_idem (l : List Char) : trimL (trimL l) = trimL l := by
  show trimL (trimRightL (l.dropWhile isJsWs)) = trimL l
  cases hd : (l.dropWhile isJsWs) with
  | nil => simp [trimL, hd, show trimRightL [] = ([] : List Char) from rfl]
  | cons c rest =>
    have hc : isJsWs c = false := dropWhile_head_false hd
    rw [trimRightL_head_not_ws hc]
    unfold trimL
    rw [List.dropWhile_cons, if_neg (by simp [hc]), ← trimRightL_head_not_ws hc,
      ← hd, trimRightL_idem]

/-- The dash substitution leaves a leading space alone. -/
theorem dashNorm_space : dashNorm ' ' = ' ' := rfl

/-- Normalization of a trimmed line equals normalization of the line:
the equality behind the stability of classification under the
trimming performed by pushUnique. -/
theorem normLineL_trimL (l : List Char) : normLineL (trimL l) = normLineL l := by
  unfold normLineL
  rw [show (trimL l).map jsToLowerChar = trimL (l.map jsToLowerChar) from
    map_trimL isJsWs_jsToLower l]
  generalize l.map jsToLowerChar = m
  have hF : ∀ k : List Char,
      trimL ((collapseWsAux false (k.dropWhile isJsWs)).map dashNorm) =
        trimL ((collapseWsAux false k).map dashNorm) := by
    intro k
    rw [collapse_false_dropWhile k, List.map_append]
    by_cases ht : (k.takeWhile isJsWs).isEmpty = true
    · rw [if_pos ht]
      rfl
    · rw [if_neg ht]
      exact (trimL_cons_ws (by decide) _).symm
  have hCore : trimL ((collapseWsAux false (trimL m)).map dashNorm) =
      trimL ((collapseWsAux false (m.dropWhile isJsWs)).map dashNorm) := by
    show trimL ((collapseWsAux false (trimRightL (m.dropWhile isJsWs))).map dashNorm) = _
    obtain ⟨q, hq, hqw⟩ := trimRightL_decomp (m.dropWhile isJsWs)
    by_cases hcn : trimRightL (m.dropWhile isJsWs) = []
    · rw [hcn]
      rw [hcn] at hq
      rw [show (m.dropWhile isJsWs) = q from by simpa using hq]
      rw [collapse_allWs hqw]
      by_cases hqe : q.isEmpty = true
      · rw [if_pos hqe]
        rfl
      · rw [if_neg hqe]
        rfl
    · have hcc : trimRightL (trimRightL (m.dropWhile isJsWs)) =
          trimRightL (m.dropWhile isJsWs) := trimRightL_idem _
      conv_rhs => rw [hq]
      rw [collapse_append_allWs (trimRightL (m.dropWhile isJsWs)) hcc hcn hqw false]
      by_cases hqe : q.isEmpty = true
      · rw [if_pos hqe]
        simp
      · rw [if_neg hqe, List.map_append]
        rw [show ([' '] : List Char).map dashNorm = [' '] from rfl]
        rw [trimL_append_allWs (by decide)]
  rw [hCore, hF]

theorem data_jsTrim (s : String) : (jsTrim s).data = trimL s.data := rfl

theorem jsTrim_idem (s : String) : jsTrim (jsTrim s) = jsTrim s :=
  congrArg String.mk (trimL_idem s.data)

theorem normalizeLine_jsTrim (s : String) : normalizeLine (jsTrim s) = normalizeLine s :=
  congrArg String.mk (normLineL_trimL s.data)

theorem classify_jsTrim (x : String) (p : Tier) :
    classifyConstraintTier (jsTrim x) p = classifyConstraintTier x p := by
  unfold classifyConstraintTier
  rw [normalizeLine_jsTrim]

theorem tierOf_stable : ∀ (h n f : Bool) (p q : Tier), tierOf h n f p = q → tierOf h n f q = q := by
  decide

theorem classify_stable {x : String} {p q : Tier} (hcl : classifyConstraintTier x p = q) :
    classifyConstraintTier x q = q := by
  unfold classifyConstraintTier at hcl ⊢
  exact tierOf_stable _ _ _ _ _ hcl

theorem tierOf_pref_forces_hard : ∀ h n : Bool, tierOf h n true .tier1 = .tier1 → h = true := by
  decide

theorem mem_pushUnique {arr : List String} {x y : String} (h : y ∈ pushUnique arr x) :
    y ∈ arr ∨ (y = jsTrim x ∧ (normalizeLine x).isEmpty = false) := by
  simp only [pushUnique] at h
  by_cases h1 : (normalizeLine x).isEmpty = true
  · rw [if_pos h1] at h
    exact Or.inl h
  · rw [if_neg h1] at h
    by_cases h2 : arr.any (fun z => normalizeLine z == normalizeLine x) = true
    · rw [if_pos h2] at h
      exact Or.inl h
    · rw [if_neg h2] at h
      rcases List.mem_append.mp h with h3 | h3
      · exact Or.inl h3
      · exact Or.inr ⟨List.mem_singleton.mp h3, Bool.not_eq_true _ |>.mp h1⟩

theorem pairwise_pushUnique {arr : List String} {x : String} (h : distinctNorms arr) :
    distinctNorms (pushUnique arr x) := by
  unfold distinctNorms at h ⊢
  simp only [pushUnique]
  by_cases h1 : (normalizeLine x).isEmpty = true
  · rw [if_pos h1]
    exact h
  · rw [if_neg h1]
    by_cases h2 : arr.any (fun z => normalizeLine z == normalizeLine x) = true
    · rw [if_pos h2]
      exact h
    · rw [if_neg h2]
      rw [List.pairwise_append]
      refine ⟨h, List.pairwise_singleton _ _, ?_⟩
      intro a ha b hb
      rw [List.mem_singleton.mp hb, normalizeLine_jsTrim]
      intro heq
      apply h2
      rw [List.any_eq_true]
      exact ⟨a, ha, by simp [heq]⟩

theorem pushUnique_eq_append {arr : List String} {x : String}
    (h1 : (normalizeLine x).isEmpty = false)
    (h2 : ∀ y ∈ arr, normalizeLine y ≠ normalizeLine x) :
    pushUnique arr x = arr ++ [jsTrim x] := by
  have hany : arr.any (fun z => normalizeLine z == normalizeLine x) = false := by
    rw [List.any_eq_false]
    intro z hz
    simp only [beq_iff_eq]
    exact h2 z hz
  simp only [pushUnique]
  rw [if_neg (by simp [h1]), if_neg (by simp [hany])]

theorem stepInv (prior : Tier) (c : String) {st : ConstraintTier} (h : StInv st) :
    StInv (retierStep prior st c) := by
  obtain ⟨g1, g2, g3, p1, p2, p3⟩ := h
  unfold retierStep
  cases hcl : classifyConstraintTier c prior with
  | tier1 =>
    refine ⟨?_, g2, g3, pairwise_pushUnique p1, p2, p3⟩
    intro y hy
    rcases mem_pushUnique hy with hy | ⟨hy, hne⟩
    · exact g1 y hy
    · subst hy
      refine ⟨?_, jsTrim_idem c, ?_⟩
      · rw [classify_jsTrim]
        exact classify_stable hcl
      · rw [normalizeLine_jsTrim]
        exact hne
  | tier2 =>
    refine ⟨g1, ?_, g3, p1, pairwise_pushUnique p2, p3⟩
    intro y hy
    rcases mem_pushUnique hy with hy | ⟨hy, hne⟩
    · exact g2 y hy
    · subst hy
      refine ⟨?_, jsTrim_idem c, ?_⟩
      · rw [classify_jsTrim]
        exact classify_stable hcl
      · rw [normalizeLine_jsTrim]
        exact hne
  | tier3 =>
    refine ⟨g1, g2, ?_, p1, p2, pairwise_pushUnique p3⟩
    intro y hy
    rcases mem_pushUnique hy with hy | ⟨hy, hne⟩
    · exact g3 y hy
    · subst hy
      refine ⟨?_, jsTrim_idem c, ?_⟩
      · rw [classify_jsTrim]
        exact classify_stable hcl
      · rw [normalizeLine_jsTrim]
        exact hne

theorem foldInv (prior : Tier) (l : List String) {st : ConstraintTier} (h : StInv st) :
    StInv (l.foldl (retierStep prior) st) := by
  induction l generalizing st with
  | nil => exact h
  | cons a l2 ih => exact ih (stepInv prior a h)

theorem StInv_empty : StInv ⟨[], [], []⟩ := by
  unfold StInv distinctNorms
  refine ⟨?_, ?_, ?_, ?_, ?_, ?_⟩ <;> simp

theorem retier_StInv (cs : ConstraintTier) : StInv (retier cs) := by
  unfold retier
  exact foldInv _ _ (foldInv _ _ (foldInv _ _ StInv_empty))

theorem fold_replay1 (l : List String) (st : ConstraintTier)
    (hgood : ∀ x ∈ l, goodFor .tier1 x) (hpair : distinctNorms l)
    (hfresh : ∀ x ∈ l, ∀ y ∈ st.tier1, normalizeLine y ≠ normalizeLine x) :
    l.foldl (retierStep .tier1) st = { st with tier1 := st.tier1 ++ l } := by
  induction l generalizing st with
  | nil => simp
  | cons a l2 ih =>
    obtain ⟨hcl, htrim, hne⟩ := hgood a (List.mem_cons_self a l2)
    have hstep : retierStep .tier1 st a = { st with tier1 := st.tier1 ++ [a] } := by
      unfold retierStep
      rw [hcl, pushUnique_eq_append hne
        (fun y hy => hfresh a (List.mem_cons_self a l2) y hy), htrim]
    have hfresh2 : ∀ x ∈ l2, ∀ y ∈ ({ st with tier1 := st.tier1 ++ [a] } : ConstraintTier).tier1,
        normalizeLine y ≠ normalizeLine x := by
      intro x hx y hy
      rcases List.mem_append.mp hy with hy2 | hy2
      · exact hfresh x (List.mem_cons_of_mem a hx) y hy2
      · rw [List.mem_singleton.mp hy2]
        exact (List.pairwise_cons.mp hpair).1 x hx
    rw [List.foldl_cons, hstep,
      ih { st with tier1 := st.tier1 ++ [a] }
        (fun x hx => hgood x (List.mem_cons_of_mem a hx))
        (List.pairwise_cons.mp hpair).2 hfresh2]
    simp

theorem fold_replay2 (l : List String) (st : ConstraintTier)
    (hgood : ∀ x ∈ l, goodFor .tier2 x) (hpair : distinctNorms l)
    (hfresh : ∀ x ∈ l, ∀ y ∈ st.tier2, normalizeLine y ≠ normalizeLine x) :
    l.foldl (retierStep .tier2) st = { st with tier2 := st.tier2 ++ l } := by
  induction l generalizing st with
  | nil => simp
  | cons a l2 ih =>
    obtain ⟨hcl, htrim, hne⟩ := hgood a (List.mem_cons_self a l2)
    have hstep : retierStep .tier2 st a = { st with tier2 := st.tier2 ++ [a] } := by
      unfold retierStep
      rw [hcl, pushUnique_eq_append hne
        (fun y hy => hfresh a (List.mem_cons_self a l2) y hy), htrim]
    have hfresh2 : ∀ x ∈ l2, ∀ y ∈ ({ st with tier2 := st.tier2 ++ [a] } : ConstraintTier).tier2,
        normalizeLine y ≠ normalizeLine x := by
      intro x hx y hy
      rcases List.mem_append.mp hy with hy2 | hy2
      · exact hfresh x (List.mem_cons_of_mem a hx) y hy2
      · rw [List.mem_singleton.mp hy2]
        exact (List.pairwise_cons.mp hpair).1 x hx
    rw [List.foldl_cons, hstep,
      ih { st with tier2 := st.tier2 ++ [a] }
        (fun x hx => hgood x (List.mem_cons_of_mem a hx))
        (List.pairwise_cons.mp hpair).2 hfresh2]
    simp

theorem fold_replay3 (l : List String) (st : ConstraintTier)
    (hgood : ∀ x ∈ l, goodFor .tier3 x) (hpair : distinctNorms l)
    (hfresh : ∀ x ∈ l, ∀ y ∈ st.tier3, normalizeLine y ≠ normalizeLine x) :
    l.foldl (retierStep .tier3) st = { st with tier3 := st.tier3 ++ l } := by
  induction l generalizing st with
  | nil => simp
  | cons a l2 ih =>
    obtain ⟨hcl, htrim, hne⟩ := hgood a (List.mem_cons_self a l2)
    have hstep : retierStep .tier3 st a = { st with tier3 := st.tier3 ++ [a] } := by
      unfold retierStep
      rw [hcl, pushUnique_eq_append hne
        (fun y hy => hfresh a (List.mem_cons_self a l2) y hy), htrim]
    have hfresh2 : ∀ x ∈ l2, ∀ y ∈ ({ st with tier3 := st.tier3 ++ [a] } : ConstraintTier).tier3,
        normalizeLine y ≠ normalizeLine x := by
      intro x hx y hy
      rcases List.mem_append.mp hy with hy2 | hy2
      · exact hfresh x (List.mem_cons_of_mem a hx) y hy2
      · rw [List.mem_singleton.mp hy2]
        exact (List.pairwise_cons.mp hpair).1 x hx
    rw [List.foldl_cons, hstep,
      ih { st with tier3 := st.tier3 ++ [a] }
        (fun x hx => hgood x (List.mem_cons_of_mem a hx))
        (List.pairwise_cons.mp hpair).2 hfresh2]
    simp

theorem retier_fixed {out : ConstraintTier} (h : StInv out) : retier out = out := by
  obtain ⟨g1, g2, g3, p1, p2, p3⟩ := h
  rcases out with ⟨t1, t2, t3⟩
  unfold retier
  rw [fold_replay1 t1 ⟨[], [], []⟩ g1 p1 (by simp)]
  simp only [List.nil_append]
  rw [fold_replay2 t2 _ g2 p2 (by simp)]
  simp only [List.nil_append]
  rw [fold_replay3 t3 _ g3 p3 (by simp)]
  rfl

theorem retier_idem (cs : ConstraintTier) : retier (retier cs) = retier cs :=
  retier_fixed (retier_StInv cs)

theorem normalizeSession_constraints (t : AgentSession) :
    (normalizeSession t).constraints = retier t.constraints := rfl

/-- C4 amended: the tier reclassification and de-duplication of
normalizeSession is idempotent: a second run leaves the constraint
tiers unchanged.  (Full-session idempotence fails: the year back-fill
can differ on the second run, see the counterexample.) -/
theorem normalizeSession_tiers_idem (s : AgentSession) :
    (normalizeSession (normalizeSession s)).constraints = (normalizeSession s).constraints := by
  rw [normalizeSession_constraints, normalizeSession_constraints, retier_idem]

/-- C4 counterexample: reclassification demotes the tier-1 string
containing the unextractable year text and promotes the tier-2 string
containing the extractable one, so the second run extracts a year
range the first run missed and the session changes. -/
theorem normalizeSession_not_idempotent_counterexample :
    ((normalizeSession c4sess).intent.vehicle.getD emptyVehicle).year_range = none ∧
    ((normalizeSession (normalizeSession c4sess)).intent.vehicle.getD emptyVehicle).year_range =
      some "1990-1995" ∧
    normalizeSession (normalizeSession c4sess) ≠ normalizeSession c4sess := by
  refine ⟨by decide, by decide, by decide⟩

/-- C3 amended: a constraint string containing a preference indicator
ends in the tier-1 output of the Constraint Normalizer only when it
also contains a hard indicator, which takes precedence. -/
theorem preference_in_tier1_has_hard (s : AgentSession) (x : String)
    (hx : x ∈ (normalizeSession s).constraints.tier1)
    (hpref : anyIndicator (normalizeLine x) preferenceIndicators = true) :
    anyIndicator (normalizeLine x) hardIndicators = true := by
  rw [normalizeSession_constraints] at hx
  have hcl := ((retier_StInv s.constraints).1 x hx).1
  simp only [classifyConstraintTier] at hcl
  rw [hpref] at hcl
  exact tierOf_pref_forces_hard _ _ hcl

/-- C3 witness: a string carrying both a preference and a hard
indicator lands in tier one, and the theorem forces the hard
indicator. -/
theorem preference_in_tier1_has_hard_witness :
    "must avoid rust" ∈ (normalizeSession c3sess).constraints.tier1 ∧
    anyIndicator (normalizeLine "must avoid rust") preferenceIndicators = true ∧
    anyIndicator (normalizeLine "must avoid rust") hardIndicators = true :=
  ⟨by decide, by decide, preference_in_tier1_has_hard c3sess "must avoid rust" (by decide)
    (by decide)⟩

/-- C3 counterexample: the preference-indicated string containing the
hard indicator must is classified tier one by the Constraint
Normalizer, so a preference indicator alone does not keep a string
out of tier one. -/
theorem preference_classified_tier1_counterexample :
    (normalizeSession c3sess).constraints.tier1 = ["must avoid rust"] ∧
    anyIndicator (normalizeLine "must avoid rust") preferenceIndicators = true := by
  refine ⟨by decide, by decide⟩

end AutoAgent
